import Mathlib

/-!
Verification of the HEC-RAS geometry text parser of `ras-stac`
(`ras_stac/ras1d/utils/ras_utils.py` and `ras_stac/ras1d/utils/classes.py`).

Strings are modelled as `List Char` (`chars s` turns a Lean string literal
into its character list).  Python exceptions are modelled with
`Except (List Char)`; the message is prefixed with the Python exception
class name (`ValueError: ...`, `TypeError: ...`) so that `try/except
ValueError` blocks can be modelled precisely.  Python floats are modelled
as exact rationals (`ℚ`); CPython's float parsing is modelled for the
decimal-literal subset actually produced by the geometry format (optional
sign, digits, optional fraction; no exponents, infinities or underscores).
-/

set_option maxHeartbeats 1000000

/-- Character list of a string literal. -/
def chars (s : String) : List Char := s.data

/-- Decimal digit character for a digit value (values `≥ 9` clamp to `'9'`). -/
def digitChar : ℕ → Char
  | 0 => '0' | 1 => '1' | 2 => '2' | 3 => '3' | 4 => '4'
  | 5 => '5' | 6 => '6' | 7 => '7' | 8 => '8' | _ => '9'

/-- Numeric value of a digit character. -/
def digitVal (c : Char) : ℕ := c.toNat - 48

/-- Value of a string of digit characters read in base 10. -/
def digitsVal (cs : List Char) : ℕ := cs.foldl (fun a c => a * 10 + digitVal c) 0

/-- Decimal digit string of a natural number, as produced by Python `str`. -/
def natToChars (n : ℕ) : List Char :=
  if n < 10 then [digitChar n]
  else natToChars (n / 10) ++ [digitChar (n % 10)]
termination_by n
decreasing_by exact Nat.div_lt_self (by omega) (by omega)

/-- Decimal digit string of an integer, as produced by Python `str`. -/
def intToChars (z : ℤ) : List Char :=
  if z < 0 then '-' :: natToChars z.natAbs else natToChars z.natAbs

theorem digitVal_digitChar {d : ℕ} (h : d < 10) : digitVal (digitChar d) = d := by
  interval_cases d <;> decide

theorem isDigit_digitChar (d : ℕ) : (digitChar d).isDigit = true := by
  unfold digitChar
  split <;> decide

theorem natToChars_ne_nil (n : ℕ) : natToChars n ≠ [] := by
  unfold natToChars
  split <;> simp

theorem natToChars_all_digit (n : ℕ) : ∀ c ∈ natToChars n, c.isDigit = true := by
  induction n using Nat.strong_induction_on with
  | _ n ih =>
    unfold natToChars
    split
    · intro c hc
      simp at hc
      subst hc
      exact isDigit_digitChar n
    · intro c hc
      simp at hc
      rcases hc with hc | hc
      · exact ih (n / 10) (Nat.div_lt_self (by omega) (by omega)) c hc
      · subst hc
        exact isDigit_digitChar (n % 10)

theorem digitsVal_append_singleton (cs : List Char) (c : Char) :
    digitsVal (cs ++ [c]) = digitsVal cs * 10 + digitVal c := by
  simp [digitsVal, List.foldl_append]

theorem digitsVal_natToChars (n : ℕ) : digitsVal (natToChars n) = n := by
  induction n using Nat.strong_induction_on with
  | _ n ih =>
    unfold natToChars
    split
    · next h => simp [digitsVal, digitVal_digitChar h]
    · rw [digitsVal_append_singleton, ih (n / 10) (Nat.div_lt_self (by omega) (by omega)),
        digitVal_digitChar (Nat.mod_lt _ (by omega))]
      omega

theorem natToChars_injective {m n : ℕ} (h : natToChars m = natToChars n) : m = n := by
  have := digitsVal_natToChars m
  rw [h, digitsVal_natToChars] at this
  omega

theorem natToChars_length_le {n k : ℕ} (hk : 1 ≤ k) (h : n < 10 ^ k) :
    (natToChars n).length ≤ k := by
  induction k generalizing n with
  | zero => omega
  | succ k ih =>
    unfold natToChars
    split
    · simp
    · next hlt =>
      have hk1 : 1 ≤ k := by
        by_contra hk0
        have hkz : k = 0 := by omega
        subst hkz
        simp at h
        omega
      have hdiv : n / 10 < 10 ^ k := by
        have hpow : 10 ^ (k + 1) = 10 ^ k * 10 := by ring
        rw [hpow] at h
        omega
      have := ih hk1 hdiv
      simp
      omega

theorem intToChars_all (z : ℤ) : ∀ c ∈ intToChars z, c.isDigit = true ∨ c = '-' := by
  unfold intToChars
  split
  · intro c hc
    simp at hc
    rcases hc with hc | hc
    · right; exact hc
    · left; exact natToChars_all_digit _ c hc
  · intro c hc
    left; exact natToChars_all_digit _ c hc

theorem intToChars_ne_nil (z : ℤ) : intToChars z ≠ [] := by
  unfold intToChars
  split
  · simp
  · exact natToChars_ne_nil _

/-- Trailing characters equal to `' '` removed, as Python `str.rstrip(" ")`. -/
def rstripSpaces (l : List Char) : List Char :=
  (l.reverse.dropWhile fun c => c == ' ').reverse

/-- Trailing whitespace removed, as Python `str.rstrip()`. -/
def rstripAll (l : List Char) : List Char :=
  (l.reverse.dropWhile Char.isWhitespace).reverse

/-- Leading and trailing whitespace removed, as Python `str.strip()` (applied
by `int()` and `float()` before parsing). -/
def trimChars (l : List Char) : List Char :=
  rstripAll (l.dropWhile Char.isWhitespace)

/-- Optional leading sign of a numeric literal, as consumed by CPython. -/
def parseSign : List Char → ℤ × List Char
  | '-' :: r => (-1, r)
  | '+' :: r => (1, r)
  | cs => (1, cs)

/-- Core of Python `int(str)` on an already-stripped string. -/
def pyIntCore (cs : List Char) : Option ℤ :=
  if (parseSign cs).2 ≠ [] ∧ (parseSign cs).2.all Char.isDigit then
    some ((parseSign cs).1 * digitsVal (parseSign cs).2)
  else none

/-- Python `int(str)`: strip whitespace, optional sign, decimal digits;
anything else raises `ValueError`. -/
def pyInt (s : List Char) : Except (List Char) ℤ :=
  match pyIntCore (trimChars s) with
  | some z => .ok z
  | none => .error (chars "ValueError: invalid literal for int with base 10: " ++ s)

/-- Continuation of Python `float(str)` after the integer digits: either the
string ends, or a dot followed by fraction digits ends it. -/
def pyFloatTail (sgn : ℤ) (ip : List Char) : List Char → Option ℚ
  | [] => if ip = [] then none else some ((sgn : ℚ) * digitsVal ip)
  | '.' :: r3 =>
    if r3.dropWhile Char.isDigit = [] ∧ (ip ≠ [] ∨ r3.takeWhile Char.isDigit ≠ []) then
      some ((sgn : ℚ) * ((digitsVal ip : ℚ) +
        (digitsVal (r3.takeWhile Char.isDigit) : ℚ) / 10 ^ (r3.takeWhile Char.isDigit).length))
    else none
  | _ => none

/-- Core of Python `float(str)` on an already-stripped string, for the
decimal-literal subset (optional sign, digits, optional single dot with
fraction digits; at least one digit). -/
def pyFloatCore (cs : List Char) : Option ℚ :=
  pyFloatTail (parseSign cs).1 ((parseSign cs).2.takeWhile Char.isDigit)
    ((parseSign cs).2.dropWhile Char.isDigit)

/-- Python `float(str)` for the decimal-literal subset used by the format. -/
def pyFloat (s : List Char) : Except (List Char) ℚ :=
  match pyFloatCore (trimChars s) with
  | some q => .ok q
  | none => .error (chars "ValueError: could not convert string to float: " ++ s)

theorem isWhitespace_false_of_isDigit {c : Char} (h : c.isDigit = true) :
    c.isWhitespace = false := by
  by_contra hw
  have hw' : c.isWhitespace = true := by
    cases hcw : c.isWhitespace
    · exact absurd hcw hw
    · rfl
  simp [Char.isWhitespace] at hw'
  rcases hw' with ((h1 | h1) | h1) | h1 <;> (subst h1; simp [Char.isDigit] at h)

theorem dropWhile_eq_self_of_head {p : Char → Bool} :
    ∀ {l : List Char}, (∀ c ∈ l.head?, p c = false) → l.dropWhile p = l
  | [], _ => rfl
  | c :: r, h => by
    have hc : p c = false := h c rfl
    simp [List.dropWhile, hc]

theorem rstripAll_eq_self {l : List Char} (h : ∀ c ∈ l, c.isWhitespace = false) :
    rstripAll l = l := by
  unfold rstripAll
  rw [dropWhile_eq_self_of_head, List.reverse_reverse]
  intro c hc
  apply h
  exact (List.mem_reverse).1 (List.mem_of_mem_head? hc)

theorem trimChars_eq_self {l : List Char} (h : ∀ c ∈ l, c.isWhitespace = false) :
    trimChars l = l := by
  unfold trimChars
  rw [dropWhile_eq_self_of_head, rstripAll_eq_self h]
  intro c hc
  exact h c (List.mem_of_mem_head? hc)

theorem parseSign_no_sign : ∀ {cs : List Char},
    (∀ c ∈ cs.head?, c ≠ '-' ∧ c ≠ '+') → parseSign cs = (1, cs)
  | [], _ => rfl
  | c :: r, h => by
    have hc := h c rfl
    unfold parseSign
    split
    · next heq =>
      injection heq with h1 h2
      exact absurd h1 hc.1
    · next heq =>
      injection heq with h1 h2
      exact absurd h1 hc.2
    · rfl

theorem digit_ne_minus {c : Char} (h : c.isDigit = true) : c ≠ '-' := by
  intro hc; subst hc; simp [Char.isDigit] at h

theorem digit_ne_plus {c : Char} (h : c.isDigit = true) : c ≠ '+' := by
  intro hc; subst hc; simp [Char.isDigit] at h

theorem head_no_sign_of_digits {l : List Char} (hd : ∀ c ∈ l, c.isDigit = true) :
    ∀ c ∈ l.head?, c ≠ '-' ∧ c ≠ '+' := by
  intro c hc
  have hcm : c ∈ l := List.mem_of_mem_head? hc
  exact ⟨digit_ne_minus (hd c hcm), digit_ne_plus (hd c hcm)⟩

theorem parseSign_natToChars (n : ℕ) : parseSign (natToChars n) = (1, natToChars n) :=
  parseSign_no_sign (head_no_sign_of_digits (natToChars_all_digit n))

theorem pyIntCore_natToChars (n : ℕ) : pyIntCore (natToChars n) = some (n : ℤ) := by
  unfold pyIntCore
  rw [parseSign_natToChars]
  rw [if_pos ⟨natToChars_ne_nil n, List.all_eq_true.2 (natToChars_all_digit n)⟩]
  simp [digitsVal_natToChars]

theorem pyIntCore_intToChars (z : ℤ) : pyIntCore (intToChars z) = some z := by
  unfold intToChars
  split
  · next hneg =>
    unfold pyIntCore
    have hps : parseSign ('-' :: natToChars z.natAbs) = (-1, natToChars z.natAbs) := rfl
    rw [hps]
    rw [if_pos ⟨natToChars_ne_nil _, List.all_eq_true.2 (natToChars_all_digit _)⟩]
    simp only [digitsVal_natToChars]
    congr 1
    omega
  · next hpos =>
    rw [pyIntCore_natToChars]
    congr 1
    omega

theorem pyInt_intToChars (z : ℤ) : pyInt (intToChars z) = .ok z := by
  have hws : ∀ c ∈ intToChars z, c.isWhitespace = false := by
    intro c hc
    rcases intToChars_all z c hc with h | h
    · exact isWhitespace_false_of_isDigit h
    · subst h; decide
  unfold pyInt
  rw [trimChars_eq_self hws, pyIntCore_intToChars]

theorem takeWhile_eq_self_of_all {p : Char → Bool} :
    ∀ {l : List Char}, (∀ c ∈ l, p c = true) → l.takeWhile p = l
  | [], _ => rfl
  | c :: r, h => by
    have hc : p c = true := h c (List.mem_cons_self c r)
    simp only [List.takeWhile, hc]
    rw [takeWhile_eq_self_of_all fun d hd => h d (List.mem_cons_of_mem c hd)]

theorem dropWhile_eq_nil_of_all {p : Char → Bool} :
    ∀ {l : List Char}, (∀ c ∈ l, p c = true) → l.dropWhile p = []
  | [], _ => rfl
  | c :: r, h => by
    have hc : p c = true := h c (List.mem_cons_self c r)
    simp only [List.dropWhile, hc]
    exact dropWhile_eq_nil_of_all fun d hd => h d (List.mem_cons_of_mem c hd)

theorem takeWhile_append_eval {p : Char → Bool} {a b : List Char}
    (ha : ∀ c ∈ a, p c = true) (hb : ∀ c ∈ b.head?, p c = false) :
    (a ++ b).takeWhile p = a := by
  induction a with
  | nil =>
    simp only [List.nil_append]
    cases b with
    | nil => rfl
    | cons c r => simp [List.takeWhile, hb c rfl]
  | cons c r ih =>
    have hc : p c = true := ha c (List.mem_cons_self c r)
    simp only [List.cons_append, List.takeWhile, hc, List.append_eq]
    rw [ih fun d hd => ha d (List.mem_cons_of_mem c hd)]

theorem dropWhile_append_eval {p : Char → Bool} {a b : List Char}
    (ha : ∀ c ∈ a, p c = true) (hb : ∀ c ∈ b.head?, p c = false) :
    (a ++ b).dropWhile p = b := by
  induction a with
  | nil =>
    simp only [List.nil_append]
    exact dropWhile_eq_self_of_head hb
  | cons c r ih =>
    have hc : p c = true := ha c (List.mem_cons_self c r)
    simp only [List.cons_append, List.dropWhile, hc]
    exact ih fun d hd => ha d (List.mem_cons_of_mem c hd)

/-- Fixed-point decimal number: value `m / 10 ^ k`.  This is the class of
float values that the fixed-width text encoder writes exactly. -/
structure FixedDec where
  m : ℤ
  k : ℕ
deriving DecidableEq

/-- Rational value of a fixed-point decimal. -/
def fdToRat (fd : FixedDec) : ℚ := (fd.m : ℚ) / 10 ^ fd.k

/-- Fraction digits (zero padded to `k` digits) of `A / 10 ^ k`. -/
def fracChars (A k : ℕ) : List Char :=
  List.replicate (k - (natToChars (A % 10 ^ k)).length) '0' ++ natToChars (A % 10 ^ k)

/-- Decimal rendering of a fixed-point decimal, e.g. `-83554.20`; this is the
shape a fixed-decimal formatter writes and Python `float` parses back. -/
def fdStr (fd : FixedDec) : List Char :=
  (if fd.m < 0 then ['-'] else []) ++
    natToChars (fd.m.natAbs / 10 ^ fd.k) ++ '.' :: fracChars fd.m.natAbs fd.k

theorem digitsVal_cons_zero (l : List Char) : digitsVal ('0' :: l) = digitsVal l := by
  simp [digitsVal, List.foldl_cons]
  rfl

theorem digitsVal_replicate_zero (j : ℕ) (cs : List Char) :
    digitsVal (List.replicate j '0' ++ cs) = digitsVal cs := by
  induction j with
  | zero => simp
  | succ j ih => rw [List.replicate_succ, List.cons_append, digitsVal_cons_zero, ih]

theorem fracChars_all_digit (A k : ℕ) : ∀ c ∈ fracChars A k, c.isDigit = true := by
  intro c hc
  unfold fracChars at hc
  rcases List.mem_append.1 hc with h | h
  · rw [List.eq_of_mem_replicate h]; decide
  · exact natToChars_all_digit _ c h

theorem digitsVal_fracChars (A k : ℕ) : digitsVal (fracChars A k) = A % 10 ^ k := by
  unfold fracChars
  rw [digitsVal_replicate_zero, digitsVal_natToChars]

theorem fracChars_length (A k : ℕ) (hk : 1 ≤ k) : (fracChars A k).length = k := by
  unfold fracChars
  have hlt : A % 10 ^ k < 10 ^ k := Nat.mod_lt _ (Nat.pos_pow_of_pos k (by omega))
  have hle := natToChars_length_le hk hlt
  simp [List.length_append, List.length_replicate]
  omega

theorem fd_value_eq (A k : ℕ) :
    ((A / 10 ^ k : ℕ) : ℚ) + ((A % 10 ^ k : ℕ) : ℚ) / 10 ^ k = (A : ℚ) / 10 ^ k := by
  have h10 : ((10 : ℚ) ^ k) ≠ 0 := by positivity
  have hN : A / 10 ^ k * 10 ^ k + A % 10 ^ k = A := by
    rw [Nat.mul_comm]
    exact Nat.div_add_mod A (10 ^ k)
  field_simp
  exact_mod_cast hN

theorem pyFloatTail_eval (sgn : ℤ) (A k : ℕ) :
    pyFloatTail sgn (natToChars (A / 10 ^ k)) ('.' :: fracChars A k) =
      some ((sgn : ℚ) * ((A : ℚ) / 10 ^ k)) := by
  show (if (fracChars A k).dropWhile Char.isDigit = [] ∧
      (natToChars (A / 10 ^ k) ≠ [] ∨ (fracChars A k).takeWhile Char.isDigit ≠ []) then
      some ((sgn : ℚ) * ((digitsVal (natToChars (A / 10 ^ k)) : ℚ) +
        (digitsVal ((fracChars A k).takeWhile Char.isDigit) : ℚ) /
          10 ^ ((fracChars A k).takeWhile Char.isDigit).length))
    else none) = _
  rw [dropWhile_eq_nil_of_all (fracChars_all_digit A k),
    takeWhile_eq_self_of_all (fracChars_all_digit A k)]
  rw [if_pos ⟨rfl, Or.inl (natToChars_ne_nil _)⟩]
  rw [digitsVal_natToChars, digitsVal_fracChars]
  rcases Nat.eq_zero_or_pos k with hk | hk
  · subst hk
    simp only [pow_zero, Nat.div_one, Nat.mod_one, Nat.cast_zero, zero_div, add_zero, div_one]
  · rw [fracChars_length A k hk, fd_value_eq]

theorem head_digit_append {a b : List Char} (ha : a ≠ [])
    (hd : ∀ c ∈ a, c.isDigit = true) :
    ∀ c ∈ (a ++ b).head?, c ≠ '-' ∧ c ≠ '+' := by
  cases a with
  | nil => exact absurd rfl ha
  | cons c r =>
    intro d hdm
    simp at hdm
    subst hdm
    have := hd c (List.mem_cons_self c r)
    exact ⟨digit_ne_minus this, digit_ne_plus this⟩

theorem dot_head_not_digit (l : List Char) :
    ∀ c ∈ (('.' :: l) : List Char).head?, Char.isDigit c = false := by
  intro c hc
  simp at hc
  subst hc
  decide

theorem pyFloatCore_body (A k : ℕ) :
    pyFloatCore (natToChars (A / 10 ^ k) ++ '.' :: fracChars A k) = some ((A : ℚ) / 10 ^ k) := by
  have htake := takeWhile_append_eval (natToChars_all_digit (A / 10 ^ k))
    (dot_head_not_digit (fracChars A k))
  have hdrop := dropWhile_append_eval (natToChars_all_digit (A / 10 ^ k))
    (dot_head_not_digit (fracChars A k))
  have e1 : parseSign (natToChars (A / 10 ^ k) ++ '.' :: fracChars A k)
      = (1, natToChars (A / 10 ^ k) ++ '.' :: fracChars A k) :=
    parseSign_no_sign (head_digit_append (natToChars_ne_nil _) (natToChars_all_digit _))
  unfold pyFloatCore
  rw [e1]
  show pyFloatTail 1 ((natToChars (A / 10 ^ k) ++ '.' :: fracChars A k).takeWhile Char.isDigit)
      ((natToChars (A / 10 ^ k) ++ '.' :: fracChars A k).dropWhile Char.isDigit) = _
  rw [htake, hdrop, pyFloatTail_eval]
  simp

theorem pyFloatCore_neg_body (A k : ℕ) :
    pyFloatCore ('-' :: (natToChars (A / 10 ^ k) ++ '.' :: fracChars A k))
      = some (-((A : ℚ) / 10 ^ k)) := by
  have htake := takeWhile_append_eval (natToChars_all_digit (A / 10 ^ k))
    (dot_head_not_digit (fracChars A k))
  have hdrop := dropWhile_append_eval (natToChars_all_digit (A / 10 ^ k))
    (dot_head_not_digit (fracChars A k))
  unfold pyFloatCore
  show pyFloatTail (-1) ((natToChars (A / 10 ^ k) ++ '.' :: fracChars A k).takeWhile Char.isDigit)
      ((natToChars (A / 10 ^ k) ++ '.' :: fracChars A k).dropWhile Char.isDigit) = _
  rw [htake, hdrop, pyFloatTail_eval]
  congr 1
  push_cast
  ring

theorem natAbs_cast_rat_of_neg {z : ℤ} (h : z < 0) : ((z.natAbs : ℕ) : ℚ) = -(z : ℚ) := by
  rw [Int.cast_natAbs]
  have habs : |z| = -z := abs_of_neg h
  rw [habs]
  push_cast
  ring

theorem natAbs_cast_rat_of_nonneg {z : ℤ} (h : ¬z < 0) : ((z.natAbs : ℕ) : ℚ) = (z : ℚ) := by
  rw [Int.cast_natAbs]
  have habs : |z| = z := abs_of_nonneg (not_lt.1 h)
  rw [habs]

theorem pyFloatCore_fdStr (fd : FixedDec) : pyFloatCore (fdStr fd) = some (fdToRat fd) := by
  unfold fdStr
  split
  · next hneg =>
    show pyFloatCore ('-' :: (natToChars (fd.m.natAbs / 10 ^ fd.k) ++
      '.' :: fracChars fd.m.natAbs fd.k)) = _
    rw [pyFloatCore_neg_body]
    unfold fdToRat
    rw [natAbs_cast_rat_of_neg hneg]
    congr 1
    ring
  · next hpos =>
    show pyFloatCore (natToChars (fd.m.natAbs / 10 ^ fd.k) ++
      '.' :: fracChars fd.m.natAbs fd.k) = _
    rw [pyFloatCore_body]
    unfold fdToRat
    rw [natAbs_cast_rat_of_nonneg hpos]

theorem fdStr_all (fd : FixedDec) :
    ∀ c ∈ fdStr fd, c.isDigit = true ∨ c = '-' ∨ c = '.' := by
  intro c hc
  unfold fdStr at hc
  rcases List.mem_append.1 hc with h | h
  · rcases List.mem_append.1 h with h1 | h1
    · right; left
      revert h1
      split
      · intro h1; simp at h1; exact h1
      · intro h1; simp at h1
    · left; exact natToChars_all_digit _ c h1
  · rcases List.mem_cons.1 h with h1 | h1
    · right; right; exact h1
    · left; exact fracChars_all_digit _ _ c h1

theorem fdStr_ne_nil (fd : FixedDec) : fdStr fd ≠ [] := by
  unfold fdStr
  rcases hn : natToChars (fd.m.natAbs / 10 ^ fd.k) with _ | ⟨a, r⟩
  · exact absurd hn (natToChars_ne_nil _)
  · split <;> simp

theorem fdStr_no_ws (fd : FixedDec) : ∀ c ∈ fdStr fd, c.isWhitespace = false := by
  intro c hc
  rcases fdStr_all fd c hc with h | h | h
  · exact isWhitespace_false_of_isDigit h
  · subst h; decide
  · subst h; decide

theorem pyFloat_fdStr (fd : FixedDec) : pyFloat (fdStr fd) = .ok (fdToRat fd) := by
  unfold pyFloat
  rw [trimChars_eq_self (fdStr_no_ws fd), pyFloatCore_fdStr]

theorem fdStr_injOnRat {a b : FixedDec} (h : fdStr a = fdStr b) : fdToRat a = fdToRat b := by
  have ha := pyFloat_fdStr a
  rw [h, pyFloat_fdStr] at ha
  injection ha with ha
  exact ha.symm

/-- Python substring test `pat in l`. -/
def containsSub : List Char → List Char → Bool
  | [], pat => pat.isEmpty
  | c :: rest, pat => pat.isPrefixOf (c :: rest) || containsSub rest pat

theorem prefixOf_iff : ∀ (a b : List Char), a.isPrefixOf b = true ↔ a <+: b
  | [], b => by simp [List.isPrefixOf]
  | a :: as, [] => by simp [List.isPrefixOf]
  | a :: as, b :: bs => by
    simp only [List.isPrefixOf, Bool.and_eq_true, beq_iff_eq, List.cons_prefix_cons]
    exact and_congr Iff.rfl (prefixOf_iff as bs)

theorem infixOfPrefix {p l : List Char} (h : p <+: l) : p <:+: l := by
  rcases h with ⟨t, ht⟩
  exact ⟨[], t, by simpa using ht⟩

theorem infixOfSuffix {p l : List Char} (h : p <:+ l) : p <:+: l := by
  rcases h with ⟨s, hs⟩
  exact ⟨s, [], by simpa using hs⟩

theorem infixCons {p l : List Char} (c : Char) (h : p <:+: l) : p <:+: c :: l := by
  rcases h with ⟨s, t, hst⟩
  exact ⟨c :: s, t, by rw [← hst]; simp⟩

theorem memOfInfix {p l : List Char} (h : p <:+: l) {c : Char} (hc : c ∈ p) : c ∈ l := by
  rcases h with ⟨s, t, hst⟩
  rw [← hst]
  simp [hc]

theorem memOfSuffix {p l : List Char} (h : p <:+ l) {c : Char} (hc : c ∈ p) : c ∈ l := by
  rcases h with ⟨s, hs⟩
  rw [← hs]
  simp [hc]

theorem containsSub_iff : ∀ (l pat : List Char), containsSub l pat = true ↔ pat <:+: l
  | [], pat => by
    simp only [containsSub, List.isEmpty_iff]
    constructor
    · intro h
      subst h
      exact List.infix_refl []
    · intro h
      rcases h with ⟨s, t, hst⟩
      exact (List.append_eq_nil.1 (List.append_eq_nil.1 hst).1).2
  | c :: rest, pat => by
    simp only [containsSub, Bool.or_eq_true, prefixOf_iff, containsSub_iff rest pat]
    constructor
    · intro h
      rcases h with h | h
      · exact infixOfPrefix h
      · exact infixCons c h
    · intro h
      rcases h with ⟨s, t, hst⟩
      cases s with
      | nil =>
        left
        refine ⟨t, ?_⟩
        simpa using hst
      | cons d s' =>
        right
        refine ⟨s', t, ?_⟩
        rw [List.cons_append, List.cons_append] at hst
        injection hst with h1 h2

theorem prefixAppendCases : ∀ {a : List Char} {p b : List Char}, p <+: a ++ b →
    p <+: a ∨ ∃ q, p = a ++ q ∧ q <+: b := by
  intro a
  induction a with
  | nil =>
    intro p b h
    right
    exact ⟨p, by simp, by simpa using h⟩
  | cons c a' ih =>
    intro p b h
    cases p with
    | nil => left; exact List.nil_prefix
    | cons d p' =>
      rw [List.cons_append, List.cons_prefix_cons] at h
      rcases h with ⟨hdc, hp'⟩
      subst hdc
      rcases ih hp' with h1 | ⟨q, hq1, hq2⟩
      · left
        exact (List.cons_prefix_cons).2 ⟨rfl, h1⟩
      · right
        exact ⟨q, by rw [List.cons_append, hq1], hq2⟩

theorem infixAppendCases : ∀ {a : List Char} {pat b : List Char}, pat <:+: a ++ b →
    pat <:+: a ∨ pat <:+: b ∨
      ∃ p1 p2, pat = p1 ++ p2 ∧ p1 ≠ [] ∧ p2 ≠ [] ∧ p1 <:+ a ∧ p2 <+: b := by
  intro a
  induction a with
  | nil =>
    intro pat b h
    right; left
    simpa using h
  | cons c a' ih =>
    intro pat b h
    rw [List.cons_append] at h
    have hcs : containsSub (c :: (a' ++ b)) pat = true := (containsSub_iff _ _).2 h
    simp only [containsSub, Bool.or_eq_true] at hcs
    rcases hcs with hpre | hrest
    · -- pat is a prefix of c :: (a' ++ b)
      rcases (prefixOf_iff _ _).1 hpre with hpre'
      cases pat with
      | nil => left; exact ⟨[], c :: a', by simp⟩
      | cons d p' =>
        rcases (List.cons_prefix_cons).1 hpre' with ⟨hdc, hp'⟩
        subst hdc
        rcases prefixAppendCases hp' with h1 | ⟨q, hq1, hq2⟩
        · left
          exact infixOfPrefix ((List.cons_prefix_cons).2 ⟨rfl, h1⟩)
        · rcases List.eq_nil_or_concat q with hq | _
          · subst hq
            left
            simp at hq1
            subst hq1
            exact List.infix_refl _
          · right; right
            refine ⟨d :: a', q, by rw [List.cons_append, hq1], by simp, ?_, ?_, hq2⟩
            · rename_i hqc
              rcases hqc with ⟨l, e, hl⟩
              subst hl
              simp
            · exact List.suffix_refl _
    · -- pat is inside a' ++ b
      rcases ih ((containsSub_iff _ _).1 hrest) with h1 | h1 | ⟨p1, p2, h1, h2, h3, h4, h5⟩
      · left
        exact infixCons c h1
      · right; left; exact h1
      · right; right
        refine ⟨p1, p2, h1, h2, h3, ?_, h5⟩
        rcases h4 with ⟨s, hs⟩
        exact ⟨c :: s, by rw [List.cons_append, hs]⟩

theorem infix_sep_iff {pat mid : List Char} (x y : List Char) (allowed : Char → Bool)
    (hp : pat ≠ []) (hpa : ∀ a ∈ pat, allowed a = false)
    (hm : mid ≠ []) (hma : ∀ a ∈ mid, allowed a = true) :
    pat <:+: x ++ (mid ++ y) ↔ (pat <:+: x ∨ pat <:+: y) := by
  constructor
  · intro h
    rcases infixAppendCases h with h1 | h1 | ⟨p1, p2, e1, e2, e3, e4, e5⟩
    · left; exact h1
    · rcases infixAppendCases h1 with h2 | h2 | ⟨q1, q2, f1, f2, f3, f4, f5⟩
      · exfalso
        rcases List.exists_cons_of_ne_nil hp with ⟨d, p', hd⟩
        have hdm : d ∈ mid := memOfInfix h2 (by rw [hd]; simp)
        have h3 := hma d hdm
        have h4 := hpa d (by rw [hd]; simp)
        rw [h3] at h4
        simp at h4
      · right; exact h2
      · exfalso
        rcases List.exists_cons_of_ne_nil f2 with ⟨d, q', hd⟩
        have hdm : d ∈ mid := memOfSuffix f4 (by rw [hd]; simp)
        have hdp : d ∈ pat := by rw [f1, hd]; simp
        have h3 := hma d hdm
        have h4 := hpa d hdp
        rw [h3] at h4
        simp at h4
    · exfalso
      rcases List.exists_cons_of_ne_nil e3 with ⟨d, p2', hd⟩
      rcases List.exists_cons_of_ne_nil hm with ⟨e, mid', he⟩
      rw [hd, he, List.cons_append, List.cons_prefix_cons] at e5
      have hdm : d ∈ mid := by rw [he, e5.1]; simp
      have hdp : d ∈ pat := by rw [e1, hd]; simp
      have h3 := hma d hdm
      have h4 := hpa d hdp
      rw [h3] at h4
      simp at h4
  · intro h
    rcases h with h | h
    · rcases h with ⟨s, t, hst⟩
      exact ⟨s, t ++ (mid ++ y), by rw [← hst]; simp⟩
    · rcases h with ⟨s, t, hst⟩
      exact ⟨x ++ (mid ++ s), t, by rw [← hst]; simp⟩

theorem containsSub_sep {pat mid : List Char} (x y : List Char) (allowed : Char → Bool)
    (hp : pat ≠ []) (hpa : ∀ a ∈ pat, allowed a = false)
    (hm : mid ≠ []) (hma : ∀ a ∈ mid, allowed a = true) :
    containsSub (x ++ (mid ++ y)) pat = (containsSub x pat || containsSub y pat) := by
  have hiff := infix_sep_iff x y allowed hp hpa hm hma
  cases hw : containsSub (x ++ (mid ++ y)) pat with
  | true =>
    rcases hiff.1 ((containsSub_iff _ _).1 hw) with h | h
    · rw [(containsSub_iff _ _).2 h]
      simp
    · rw [(containsSub_iff _ _).2 h]
      simp
  | false =>
    cases hx : containsSub x pat with
    | true =>
      rw [(containsSub_iff _ _).2 (hiff.2 (Or.inl ((containsSub_iff _ _).1 hx)))] at hw
      exact absurd hw (by simp)
    | false =>
      cases hy : containsSub y pat with
      | true =>
        rw [(containsSub_iff _ _).2 (hiff.2 (Or.inr ((containsSub_iff _ _).1 hy)))] at hw
        exact absurd hw (by simp)
      | false => rfl

theorem containsSub_of_prefix {pat l : List Char} (h : pat <+: l) :
    containsSub l pat = true := (containsSub_iff _ _).2 (infixOfPrefix h)

/-- Python `str.split(tok)` for a non-empty separator `tok` (an empty
separator raises in Python and is never used by the parser). -/
def splitChars (tok : List Char) : List Char → List (List Char)
  | [] => [[]]
  | c :: rest =>
    if h : tok ≠ [] ∧ tok.isPrefixOf (c :: rest) then
      [] :: splitChars tok ((c :: rest).drop tok.length)
    else
      (c :: (splitChars tok rest).headD []) :: (splitChars tok rest).tail
termination_by l => l.length
decreasing_by
  · have h1 : 1 ≤ tok.length := by
      rcases h with ⟨hne, _⟩
      cases tok
      · exact absurd rfl hne
      · simp
    simp [List.length_drop]
    omega
  · simp

theorem splitChars_nil (tok : List Char) : splitChars tok [] = [[]] := by
  rw [splitChars]

theorem splitChars_cons (tok : List Char) (c : Char) (rest : List Char) :
    splitChars tok (c :: rest) =
      if tok ≠ [] ∧ tok.isPrefixOf (c :: rest) then
        [] :: splitChars tok ((c :: rest).drop tok.length)
      else (c :: (splitChars tok rest).headD []) :: (splitChars tok rest).tail := by
  rw [splitChars]
  split <;> rfl

theorem splitChars_ne_nil (tok : List Char) : ∀ (l : List Char), splitChars tok l ≠ []
  | [] => by rw [splitChars_nil]; simp
  | c :: rest => by
    rw [splitChars_cons]
    split
    · simp
    · simp

/-- Python `str.replace(pat, rep)` for a non-empty pattern (left-to-right,
non-overlapping). -/
def replaceChars (pat rep : List Char) : List Char → List Char
  | [] => []
  | c :: rest =>
    if h : pat ≠ [] ∧ pat.isPrefixOf (c :: rest) then
      rep ++ replaceChars pat rep ((c :: rest).drop pat.length)
    else
      c :: replaceChars pat rep rest
termination_by l => l.length
decreasing_by
  · have h1 : 1 ≤ pat.length := by
      rcases h with ⟨hne, _⟩
      cases pat
      · exact absurd rfl hne
      · simp
    simp [List.length_drop]
    omega
  · simp

theorem replaceChars_nil (pat rep : List Char) : replaceChars pat rep [] = [] := by
  rw [replaceChars]

theorem replaceChars_cons (pat rep : List Char) (c : Char) (rest : List Char) :
    replaceChars pat rep (c :: rest) =
      if pat ≠ [] ∧ pat.isPrefixOf (c :: rest) then
        rep ++ replaceChars pat rep ((c :: rest).drop pat.length)
      else c :: replaceChars pat rep rest := by
  rw [replaceChars]
  split <;> rfl

theorem singleton_prefixOf_iff (t c : Char) (l : List Char) :
    ([t] : List Char).isPrefixOf (c :: l) = true ↔ t = c := by
  rw [prefixOf_iff]
  constructor
  · intro h
    exact ((List.cons_prefix_cons).1 h).1
  · intro h
    subst h
    exact (List.cons_prefix_cons).2 ⟨rfl, List.nil_prefix⟩

theorem splitChars_no_tok {t : Char} : ∀ {l : List Char}, t ∉ l → splitChars [t] l = [l]
  | [], _ => splitChars_nil [t]
  | c :: rest, h => by
    rw [splitChars_cons, if_neg]
    · rw [splitChars_no_tok (fun hm => h (List.mem_cons_of_mem c hm))]
      simp
    · intro hcon
      rcases hcon with ⟨_, hpre⟩
      have := (singleton_prefixOf_iff t c rest).1 hpre
      subst this
      exact h (List.mem_cons_self t rest)

theorem splitChars_cons_tok {t : Char} : ∀ {a : List Char} (b : List Char), t ∉ a →
    splitChars [t] (a ++ t :: b) = a :: splitChars [t] b
  | [], b, _ => by
    rw [List.nil_append, splitChars_cons, if_pos]
    · simp
    · exact ⟨by simp, (singleton_prefixOf_iff t t b).2 rfl⟩
  | c :: a', b, h => by
    rw [List.cons_append, splitChars_cons, if_neg]
    · rw [splitChars_cons_tok b (fun hm => h (List.mem_cons_of_mem c hm))]
      simp
    · intro hcon
      rcases hcon with ⟨_, hpre⟩
      have := (singleton_prefixOf_iff t c (a' ++ t :: b)).1 hpre
      subst this
      exact h (List.mem_cons_self t a')

theorem replaceChars_no_tok {t : Char} (rep : List Char) :
    ∀ {l : List Char}, t ∉ l → replaceChars [t] rep l = l
  | [], _ => replaceChars_nil [t] rep
  | c :: rest, h => by
    rw [replaceChars_cons, if_neg]
    · rw [replaceChars_no_tok rep (fun hm => h (List.mem_cons_of_mem c hm))]
    · intro hcon
      rcases hcon with ⟨_, hpre⟩
      have := (singleton_prefixOf_iff t c rest).1 hpre
      subst this
      exact h (List.mem_cons_self t rest)

/-- Python list slice `l[s:e]` with a possibly negative end index. -/
def pySliceEnd (l : List (List Char)) (s : ℕ) (e : ℤ) : List (List Char) :=
  (l.take (if e < 0 then ((l.length : ℤ) + e).toNat else e.toNat)).drop s

/-- Python `list.index` (raises `ValueError` when absent). -/
def listIndex (lines : List (List Char)) (x : List Char) : Except (List Char) ℕ :=
  if x ∈ lines then .ok (lines.findIdx (fun y => y == x))
  else .error (chars "ValueError: not in list")

/-- Truthiness of an optional Python string (`None` and `""` are falsy). -/
def pyTruthy : Option (List Char) → Bool
  | none => false
  | some s => !s.isEmpty

/-- Model of `handle_spaces_arround_equals` from `ras_utils.py`; the Python
function falls off the end (returns `None`) when the line contains `"= "`
whose normalisation is absent from `lines`. -/
def handle_spaces_arround_equals (line : List Char) (lines : List (List Char)) :
    Option (List Char) :=
  if line ∈ lines then some line
  else if containsSub line (chars "= ") then
    if replaceChars (chars "= ") (chars "=") line ∈ lines then
      some (replaceChars (chars "= ") (chars "=") line)
    else none
  else some (replaceChars (chars "=") (chars "= ") line)

/-- Model of `handle_spaces` from `ras_utils.py`.  Branch two tests the
truthiness of the helper's result (not membership in `lines`); branch three
tests membership (`None in lines` being false). -/
def handle_spaces (line : List Char) (lines : List (List Char)) :
    Except (List Char) (List Char) :=
  if line ∈ lines then .ok line
  else if pyTruthy (handle_spaces_arround_equals (rstripSpaces line) lines) then
    .ok ((handle_spaces_arround_equals (rstripSpaces line) lines).getD [])
  else if (handle_spaces_arround_equals (line ++ [' ']) lines).any
      (fun r => decide (r ∈ lines)) then
    .ok ((handle_spaces_arround_equals (line ++ [' ']) lines).getD [])
  else .error (chars "ValueError: line: " ++ line ++ chars " not found in lines")

theorem handle_spaces_mem {line : List Char} {lines : List (List Char)}
    (h : line ∈ lines) : handle_spaces line lines = .ok line := by
  unfold handle_spaces
  rw [if_pos h]

/-- Scan loop of `text_block_from_start_end_str`: starting from the line
after the anchor, if `end_index` has moved away from `len(lines)` stop;
otherwise on the first line containing a terminator set `end_index` to the
first-occurrence index of that line plus `additional`. -/
def tbsesScan (all end_strs : List (List Char)) (additional : ℤ) :
    List (List Char) → ℤ → ℤ
  | [], e => e
  | l :: rest, e =>
    if e ≠ (all.length : ℤ) then e
    else if end_strs.any (fun t => containsSub l t) then
      tbsesScan all end_strs additional rest ((all.findIdx (fun y => y == l) : ℤ) + additional)
    else tbsesScan all end_strs additional rest e

/-- Model of `text_block_from_start_end_str` from `ras_utils.py`. -/
def text_block_from_start_end_str (start_str : List Char) (end_strs : List (List Char))
    (lines : List (List Char)) (additional_lines : ℤ) :
    Except (List Char) (List (List Char)) := do
  let s ← handle_spaces start_str lines
  let start ← listIndex lines s
  let endIdx := tbsesScan lines end_strs additional_lines
    (lines.drop (start + 1)) (lines.length : ℤ)
  pure (pySliceEnd lines start endIdx)

/-- Loop of `text_block_from_start_str_length`; falling off the list is
Python's implicit `return None`. -/
def lengthLoop (s : List Char) (n : ℤ) :
    List (List Char) → List (List Char) → Bool → Option (List (List Char))
  | [], _, _ => none
  | l :: rest, acc, ib =>
    if l = s then lengthLoop s n rest acc true
    else if ib then
      if (acc.length : ℤ) ≥ n then some acc
      else lengthLoop s n rest (acc ++ [l]) true
    else lengthLoop s n rest acc false

/-- Model of `text_block_from_start_str_length` from `ras_utils.py`. -/
def text_block_from_start_str_length (start_str : List Char) (n : ℤ)
    (lines : List (List Char)) : Except (List Char) (Option (List (List Char))) := do
  let s ← handle_spaces start_str lines
  pure (lengthLoop s n lines [] false)

/-- Values collected by `search_contents`: for every line containing
`key ++ tok`, the part of the line between the first and second `tok`. -/
def searchResults (lines : List (List Char)) (key tok : List Char) : List (List Char) :=
  lines.filterMap fun l =>
    if containsSub l (key ++ tok) then some ((splitChars tok l).getD 1 []) else none

/-- Model of `search_contents` with `expect_one=True` from `ras_utils.py`. -/
def searchContentsOne (lines : List (List Char)) (key tok : List Char) :
    Except (List Char) (List Char) :=
  if (searchResults lines key tok).length > 1 then
    .error (chars "ValueError: expected 1 result, got " ++
      natToChars (searchResults lines key tok).length)
  else if (searchResults lines key tok).length = 0 then
    .error (chars "ValueError: expected 1 result, no results found")
  else .ok ((searchResults lines key tok).getD 0 [])

/-- Windows of `width` characters (`range(0, len(line), width)` slicing);
the final window may be short. -/
def chunksOf (w : ℕ) (l : List Char) : List (List Char) :=
  if h : w = 0 ∨ l = [] then [] else l.take w :: chunksOf w (l.drop w)
termination_by l.length
decreasing_by
  push_neg at h
  rcases h with ⟨hw, hl⟩
  have h1 : 1 ≤ w := by omega
  have h2 : 0 < l.length := List.length_pos.2 hl
  simp [List.length_drop]
  omega

theorem chunksOf_nil (w : ℕ) : chunksOf w [] = [] := by
  rw [chunksOf]
  simp

theorem chunksOf_eval {w : ℕ} {l : List Char} (hw : w ≠ 0) (hl : l ≠ []) :
    chunksOf w l = l.take w :: chunksOf w (l.drop w) := by
  rw [chunksOf]
  rw [dif_neg]
  push_neg
  exact ⟨hw, hl⟩

/-- Model of `data_pairs_from_text_block` from `ras_utils.py`: each line in
`width`-character windows, each window split in half, both halves parsed as
Python floats. -/
def data_pairs_from_text_block (lines : List (List Char)) (width : ℕ) :
    Except (List Char) (List (ℚ × ℚ)) :=
  lines.foldlM (fun acc line =>
    (chunksOf width line).foldlM (fun acc2 chunk => do
      let x ← pyFloat (chunk.take (width / 2))
      let y ← pyFloat (chunk.drop (width / 2))
      pure (acc2 ++ [(x, y)])) acc) []

/-- True when the modelled exception message is a `ValueError`. -/
def isVE (m : List Char) : Bool := (chars "ValueError").isPrefixOf m

/-- Model of `try: ... except ValueError: return dflt`. -/
def catchVE {α : Type} (x : Except (List Char) α) (dflt : α) : Except (List Char) α :=
  match x with
  | .ok a => .ok a
  | .error m => if isVE m then .ok dflt else .error m

theorem findIdx_append_cons {A B : List (List Char)} {h : List Char} (hA : h ∉ A) :
    (A ++ h :: B).findIdx (fun y => y == h) = A.length := by
  induction A with
  | nil => simp [List.findIdx_cons]
  | cons a A' ih =>
    rw [List.cons_append, List.findIdx_cons]
    have hane : (a == h) = false :=
      beq_eq_false_iff_ne.2 (fun he => hA (he ▸ List.mem_cons_self a A'))
    rw [hane]
    simp only [cond_false]
    rw [ih (fun hm => hA (List.mem_cons_of_mem a hm))]
    simp

theorem listIndex_append_cons {A B : List (List Char)} {h : List Char} (hA : h ∉ A) :
    listIndex (A ++ h :: B) h = .ok A.length := by
  unfold listIndex
  rw [if_pos (by simp), findIdx_append_cons hA]

theorem tbsesScan_of_ne {all ends : List (List Char)} {add e : ℤ}
    (he : e ≠ (all.length : ℤ)) : ∀ rest, tbsesScan all ends add rest e = e
  | [] => rfl
  | l :: rest => by
    unfold tbsesScan
    rw [if_pos he]

theorem tbsesScan_no_match {all ends : List (List Char)} {add : ℤ} :
    ∀ {rest : List (List Char)},
      (∀ l ∈ rest, ends.any (fun t => containsSub l t) = false) →
      tbsesScan all ends add rest (all.length : ℤ) = (all.length : ℤ)
  | [], _ => rfl
  | l :: rest, hall => by
    unfold tbsesScan
    rw [if_neg (by simp), if_neg]
    · exact tbsesScan_no_match fun x hx => hall x (List.mem_cons_of_mem l hx)
    · rw [hall l (List.mem_cons_self l rest)]
      simp

theorem tbsesScan_found {all ends : List (List Char)} {add : ℤ} {t : List Char}
    {post : List (List Char)}
    (ht : ends.any (fun τ => containsSub t τ) = true)
    (hne : ((all.findIdx (fun y => y == t) : ℤ) + add) ≠ (all.length : ℤ)) :
    ∀ {mid : List (List Char)},
      (∀ l ∈ mid, ends.any (fun τ => containsSub l τ) = false) →
      tbsesScan all ends add (mid ++ t :: post) (all.length : ℤ)
        = (all.findIdx (fun y => y == t) : ℤ) + add
  | [], _ => by
    rw [List.nil_append]
    unfold tbsesScan
    rw [if_neg (by simp), if_pos ht]
    exact tbsesScan_of_ne hne post
  | m :: mid', hall => by
    rw [List.cons_append]
    unfold tbsesScan
    rw [if_neg (by simp), if_neg]
    · exact tbsesScan_found ht hne fun x hx => hall x (List.mem_cons_of_mem m hx)
    · rw [hall m (List.mem_cons_self m mid')]
      simp

theorem drop_after_anchor (A X : List (List Char)) (h : List Char) :
    (A ++ h :: X).drop (A.length + 1) = X := by
  have e1 : A ++ h :: X = (A ++ [h]) ++ X := by simp
  have e2 : (A ++ [h]).length = A.length + 1 := by simp
  rw [e1, ← e2, List.drop_left]

/-- Block extraction when a terminator line follows: the anchor line, the
lines before the terminator, and `extra` further lines starting at the
terminator (the terminator itself is only included when `extra ≥ 1`). -/
theorem tb_found (A mid post : List (List Char)) (h t : List Char)
    (terms : List (List Char)) (extra : ℤ)
    (hA : h ∉ A)
    (hmid : ∀ l ∈ mid, (terms.any fun τ => containsSub l τ) = false)
    (ht : (terms.any fun τ => containsSub t τ) = true)
    (htA : t ∉ A) (hth : t ≠ h) (htmid : t ∉ mid)
    (hext : 0 ≤ extra)
    (hlt : (A.length : ℤ) + 1 + mid.length + extra
      < (A.length : ℤ) + 1 + mid.length + 1 + post.length) :
    text_block_from_start_end_str h terms (A ++ h :: (mid ++ t :: post)) extra
      = .ok (h :: (mid ++ (t :: post).take extra.toNat)) := by
  have hmem : h ∈ A ++ h :: (mid ++ t :: post) := by simp
  have hlen : (A ++ h :: (mid ++ t :: post)).length = A.length + 1 + mid.length + 1 + post.length := by
    simp
    omega
  have hidxt : (A ++ h :: (mid ++ t :: post)).findIdx (fun y => y == t)
      = A.length + 1 + mid.length := by
    have e1 : A ++ h :: (mid ++ t :: post) = (A ++ h :: mid) ++ t :: post := by simp
    rw [e1, findIdx_append_cons]
    · simp
      omega
    · intro hmem2
      rcases List.mem_append.1 hmem2 with hx | hx
      · exact htA hx
      · rcases List.mem_cons.1 hx with hx1 | hx1
        · exact hth hx1
        · exact htmid hx1
  unfold text_block_from_start_end_str
  rw [handle_spaces_mem hmem]
  show (do
    let start ← listIndex (A ++ h :: (mid ++ t :: post)) h
    let endIdx := tbsesScan (A ++ h :: (mid ++ t :: post)) terms extra
      ((A ++ h :: (mid ++ t :: post)).drop (start + 1))
      ((A ++ h :: (mid ++ t :: post)).length : ℤ)
    pure (pySliceEnd (A ++ h :: (mid ++ t :: post)) start endIdx)) = _
  rw [listIndex_append_cons hA]
  show Except.ok (pySliceEnd (A ++ h :: (mid ++ t :: post)) A.length
    (tbsesScan (A ++ h :: (mid ++ t :: post)) terms extra
      ((A ++ h :: (mid ++ t :: post)).drop (A.length + 1))
      ((A ++ h :: (mid ++ t :: post)).length : ℤ))) = _
  rw [drop_after_anchor]
  rw [tbsesScan_found ht (by rw [hidxt, hlen]; push_cast; omega) hmid]
  rw [hidxt]
  congr 1
  unfold pySliceEnd
  rw [if_neg (by push_cast; omega)]
  have htoNat : ((A.length + 1 + mid.length : ℕ) + extra).toNat
      = (A.length + 1 + mid.length) + extra.toNat := by omega
  rw [htoNat]
  have e2 : A ++ h :: (mid ++ t :: post) = (A ++ h :: mid) ++ (t :: post) := by simp
  have e3 : (A ++ h :: mid).length = A.length + 1 + mid.length := by simp; omega
  rw [e2]
  rw [show A.length + 1 + mid.length + extra.toNat = (A ++ h :: mid).length + extra.toNat by
    rw [e3]]
  rw [List.take_append]
  have e4 : (A ++ h :: mid) ++ (t :: post).take extra.toNat
      = A ++ (h :: (mid ++ (t :: post).take extra.toNat)) := by simp
  rw [e4, List.drop_left]

/-- Block extraction when no line after the anchor contains a terminator:
everything from the anchor to the end of the document. -/
theorem tb_noterm (A X : List (List Char)) (h : List Char)
    (terms : List (List Char)) (extra : ℤ)
    (hA : h ∉ A)
    (hX : ∀ l ∈ X, (terms.any fun τ => containsSub l τ) = false) :
    text_block_from_start_end_str h terms (A ++ h :: X) extra = .ok (h :: X) := by
  have hmem : h ∈ A ++ h :: X := by simp
  unfold text_block_from_start_end_str
  rw [handle_spaces_mem hmem]
  show (do
    let start ← listIndex (A ++ h :: X) h
    let endIdx := tbsesScan (A ++ h :: X) terms extra
      ((A ++ h :: X).drop (start + 1)) ((A ++ h :: X).length : ℤ)
    pure (pySliceEnd (A ++ h :: X) start endIdx)) = _
  rw [listIndex_append_cons hA]
  show Except.ok (pySliceEnd (A ++ h :: X) A.length
    (tbsesScan (A ++ h :: X) terms extra
      ((A ++ h :: X).drop (A.length + 1)) ((A ++ h :: X).length : ℤ))) = _
  rw [drop_after_anchor, tbsesScan_no_match hX]
  congr 1
  unfold pySliceEnd
  rw [if_neg (by push_cast; omega)]
  have htoNat : ((A ++ h :: X).length : ℤ).toNat = (A ++ h :: X).length := by omega
  rw [htoNat, List.take_length, List.drop_left]

theorem lengthLoop_cons (s : List Char) (n : ℤ) (l : List Char)
    (rest acc : List (List Char)) (ib : Bool) :
    lengthLoop s n (l :: rest) acc ib =
      if l = s then lengthLoop s n rest acc true
      else if ib then
        if (acc.length : ℤ) ≥ n then some acc
        else lengthLoop s n rest (acc ++ [l]) true
      else lengthLoop s n rest acc false := rfl

theorem lengthLoop_ib {s : List Char} {n : ℤ} :
    ∀ (rest : List (List Char)) (acc : List (List Char)), s ∉ rest →
    lengthLoop s n rest acc true =
      if n ≤ (acc.length : ℤ) then (if rest = [] then none else some acc)
      else if n < (acc.length : ℤ) + rest.length then
        some (acc ++ rest.take (n - acc.length).toNat)
      else none
  | [], acc, _ => by
    show none = _
    split
    · simp
    · split
      · next h1 h2 =>
        exfalso
        simp at h2
        omega
      · rfl
  | l :: rest, acc, hs => by
    have hls : ¬l = s := fun he => hs (he ▸ List.mem_cons_self l rest)
    rw [lengthLoop_cons, if_neg hls, if_pos rfl]
    split
    · next hge =>
      simp
    · next hlt =>
      rw [lengthLoop_ib rest (acc ++ [l]) (fun hm => hs (List.mem_cons_of_mem l hm))]
      have hacc : (acc.length : ℤ) < n := by omega
      have hlen : (((acc ++ [l]).length : ℕ) : ℤ) = (acc.length : ℤ) + 1 := by simp
      by_cases hc1 : n ≤ (acc.length : ℤ) + 1
      · have hq1 : n ≤ (((acc ++ [l]).length : ℕ) : ℤ) := by rw [hlen]; omega
        rw [if_pos hq1]
        cases rest with
        | nil =>
          rw [if_pos rfl]
          have hq3 : ¬n < (acc.length : ℤ) + (((l :: ([] : List (List Char))).length : ℕ) : ℤ) := by
            simp
            omega
          rw [if_neg hq3]
        | cons r rest' =>
          have hq0 : ¬(r :: rest' = ([] : List (List Char))) := by simp
          rw [if_neg hq0]
          have hq3 : n < (acc.length : ℤ) + (((l :: r :: rest').length : ℕ) : ℤ) := by
            simp
            omega
          rw [if_pos hq3]
          have hn1 : (n - (acc.length : ℤ)).toNat = 1 := by omega
          rw [hn1]
          simp
      · have hq1 : ¬n ≤ (((acc ++ [l]).length : ℕ) : ℤ) := by rw [hlen]; omega
        rw [if_neg hq1]
        by_cases hc2 : n < (acc.length : ℤ) + 1 + rest.length
        · have hq2 : n < (((acc ++ [l]).length : ℕ) : ℤ) + rest.length := by rw [hlen]; omega
          have hq3 : n < (acc.length : ℤ) + (((l :: rest).length : ℕ) : ℤ) := by
            simp
            omega
          rw [if_pos hq2, if_pos hq3]
          have htk : (l :: rest).take (n - (acc.length : ℤ)).toNat
              = l :: rest.take (n - ((acc.length : ℤ) + 1)).toNat := by
            have h1 : (n - (acc.length : ℤ)).toNat = (n - ((acc.length : ℤ) + 1)).toNat + 1 := by
              omega
            rw [h1, List.take_succ_cons]
          rw [htk]
          have harg : (n - (((acc ++ [l]).length : ℕ) : ℤ)).toNat
              = (n - ((acc.length : ℤ) + 1)).toNat := by rw [hlen]
          rw [harg]
          simp
        · have hq2 : ¬n < (((acc ++ [l]).length : ℕ) : ℤ) + rest.length := by rw [hlen]; omega
          have hq3 : ¬n < (acc.length : ℤ) + (((l :: rest).length : ℕ) : ℤ) := by
            simp
            omega
          rw [if_neg hq2, if_neg hq3]

theorem lengthLoop_pre {s : List Char} {n : ℤ} :
    ∀ {pre : List (List Char)} (rest : List (List Char)), s ∉ pre →
    lengthLoop s n (pre ++ s :: rest) [] false = lengthLoop s n rest [] true
  | [], rest, _ => by
    rw [List.nil_append, lengthLoop_cons, if_pos rfl]
  | p :: pre', rest, hp => by
    have hps : ¬p = s := fun he => hp (he ▸ List.mem_cons_self p pre')
    rw [List.cons_append, lengthLoop_cons, if_neg hps]
    show lengthLoop s n (pre' ++ s :: rest) [] false = _
    exact lengthLoop_pre rest (fun hm => hp (List.mem_cons_of_mem p hm))

theorem lengthLoop_no_anchor {s : List Char} {n : ℤ} :
    ∀ (l : List (List Char)) (acc : List (List Char)), s ∉ l →
    lengthLoop s n l acc false = none
  | [], _, _ => rfl
  | l :: rest, acc, hs => by
    have hls : ¬l = s := fun he => hs (he ▸ List.mem_cons_self l rest)
    rw [lengthLoop_cons, if_neg hls]
    show lengthLoop s n rest acc false = none
    exact lengthLoop_no_anchor rest acc (fun hm => hs (List.mem_cons_of_mem l hm))

/-- Evaluation of `text_block_from_start_str_length` for a document
`pre ++ anchor :: rest` with the anchor distinct from every other line:
the first `n` lines after the anchor when strictly more than `n` remain
after it, and `None` (not an error) otherwise. -/
theorem tbfssl_eval {a : List Char} {pre rest : List (List Char)} {n : ℤ}
    (hpre : a ∉ pre) (hrest : a ∉ rest) :
    text_block_from_start_str_length a n (pre ++ a :: rest)
      = .ok (if (n.toNat : ℤ) < rest.length then some (rest.take n.toNat) else none) := by
  unfold text_block_from_start_str_length
  rw [handle_spaces_mem (by simp)]
  show Except.ok (lengthLoop a n (pre ++ a :: rest) [] false) = _
  rw [lengthLoop_pre rest hpre, lengthLoop_ib rest [] hrest]
  congr 1
  by_cases h0 : n ≤ 0
  · rw [if_pos (by simpa using h0)]
    split
    · next hre =>
      subst hre
      rw [if_neg (by simp)]
    · next hre =>
      rw [if_pos]
      · have hz : n.toNat = 0 := by omega
        rw [hz]
        simp
      · have h1 : 0 < rest.length := List.length_pos.2 hre
        push_cast
        omega
  · rw [if_neg (by simpa using h0)]
    by_cases h1 : n < (rest.length : ℤ)
    · rw [if_pos (by simpa using h1), if_pos (by push_cast; omega)]
      have he : (n - (([] : List (List Char)).length : ℕ)).toNat = n.toNat := by
        simp
      rw [he]
      simp
    · rw [if_neg (by simpa using h1), if_neg (by push_cast; omega)]

instance {e a : Type} [DecidableEq e] [DecidableEq a] : DecidableEq (Except e a) := fun x y =>
  match x, y with
  | .ok v, .ok w =>
    if h : v = w then .isTrue (by rw [h]) else .isFalse (by intro hc; injection hc; contradiction)
  | .error v, .error w =>
    if h : v = w then .isTrue (by rw [h]) else .isFalse (by intro hc; injection hc; contradiction)
  | .ok _, .error _ => .isFalse (fun hc => Except.noConfusion hc)
  | .error _, .ok _ => .isFalse (fun hc => Except.noConfusion hc)

theorem replaceChars_cons_tok {t : Char} (rep : List Char) :
    ∀ {a : List Char} (b : List Char), t ∉ a →
    replaceChars [t] rep (a ++ t :: b) = a ++ (rep ++ replaceChars [t] rep b)
  | [], b, _ => by
    rw [List.nil_append, replaceChars_cons, if_pos]
    · simp
    · exact ⟨by simp, (singleton_prefixOf_iff t t b).2 rfl⟩
  | c :: a', b, h => by
    rw [List.cons_append, replaceChars_cons, if_neg]
    · rw [replaceChars_cons_tok rep b (fun hm => h (List.mem_cons_of_mem c hm))]
      simp
    · intro hcon
      rcases hcon with ⟨_, hpre⟩
      have he := (singleton_prefixOf_iff t c (a' ++ t :: b)).1 hpre
      subst he
      exact h (List.mem_cons_self t a')

/-- C2 (amended): `extract_by_terminators` returns the lines from the
resolved anchor up to but excluding the first line after the anchor whose
content contains a terminator substring, plus `trailing_extra` further
lines (the terminator line itself is included only when `trailing_extra ≥ 1`),
provided the terminator line's content does not occur earlier in the
document (the end index is a first-occurrence lookup of the line's content)
and the computed end index differs from the document length; when no line
after the anchor contains a terminator it returns through the end of the
document.  The scan runs forward once and excludes the anchor line. -/
theorem extract_by_terminators_behavior :
    (∀ (A mid post : List (List Char)) (h t : List Char) (terms : List (List Char)) (extra : ℤ),
      h ∉ A →
      (∀ l ∈ mid, (terms.any fun τ => containsSub l τ) = false) →
      (terms.any fun τ => containsSub t τ) = true →
      t ∉ A → t ≠ h → t ∉ mid →
      0 ≤ extra →
      (A.length : ℤ) + 1 + mid.length + extra
        < (A.length : ℤ) + 1 + mid.length + 1 + post.length →
      text_block_from_start_end_str h terms (A ++ h :: (mid ++ t :: post)) extra
        = .ok (h :: (mid ++ (t :: post).take extra.toNat))) ∧
    (∀ (A X : List (List Char)) (h : List Char) (terms : List (List Char)) (extra : ℤ),
      h ∉ A →
      (∀ l ∈ X, (terms.any fun τ => containsSub l τ) = false) →
      text_block_from_start_end_str h terms (A ++ h :: X) extra = .ok (h :: X)) :=
  ⟨fun A mid post h t terms extra h1 h2 h3 h4 h5 h6 h7 h8 =>
      tb_found A mid post h t terms extra h1 h2 h3 h4 h5 h6 h7 h8,
   fun A X h terms extra h1 h2 => tb_noterm A X h terms extra h1 h2⟩

/-- C2 witness: a concrete run of both branches of the amended statement. -/
theorem extract_by_terminators_behavior_witness :
    text_block_from_start_end_str (chars "A") [chars "T"]
      [chars "A", chars "B", chars "T", chars "P"] 1
      = .ok [chars "A", chars "B", chars "T"] ∧
    text_block_from_start_end_str (chars "A") [chars "T"] [chars "A", chars "B"] 0
      = .ok [chars "A", chars "B"] :=
  ⟨extract_by_terminators_behavior.1 [] [chars "B"] [chars "P"] (chars "A") (chars "T")
      [chars "T"] 1 (by decide) (by decide) (by decide) (by decide) (by decide) (by decide)
      (by decide) (by decide),
   extract_by_terminators_behavior.2 [] [chars "B"] (chars "A") [chars "T"] 0
      (by decide) (by decide)⟩

/-- C2 counterexample: with `trailing_extra = 0` the terminator line is not
included, contradicting the claim's "up to and including". -/
theorem extract_by_terminators_excludes_terminator :
    text_block_from_start_end_str (chars "A") [chars "T"]
      [chars "A", chars "B", chars "T"] 0 = .ok [chars "A", chars "B"] ∧
    text_block_from_start_end_str (chars "A") [chars "T"]
      [chars "A", chars "B", chars "T"] 0 ≠ .ok [chars "A", chars "B", chars "T"] := by
  decide

/-- C3 (amended): `extract_by_count` returns the `count` lines immediately
following the anchor only when strictly more than `count` lines follow it;
when exactly `count` or fewer lines remain it returns `None` (an absent
result) instead of raising an `InsufficientLines` error. -/
theorem extract_by_count_behavior :
    ∀ (pre rest : List (List Char)) (a : List Char) (n : ℤ),
      a ∉ pre → a ∉ rest →
      text_block_from_start_str_length a n (pre ++ a :: rest)
        = .ok (if (n.toNat : ℤ) < rest.length then some (rest.take n.toNat) else none) :=
  fun _ _ _ _ h1 h2 => tbfssl_eval h1 h2

/-- C3 witness: one line requested, two available, so the block is found. -/
theorem extract_by_count_behavior_witness :
    text_block_from_start_str_length (chars "A") 1 [chars "A", chars "B", chars "C"]
      = .ok (some [chars "B"]) :=
  extract_by_count_behavior [] [chars "B", chars "C"] (chars "A") 1 (by decide) (by decide)

/-- C3 counterexample: with exactly `count` lines remaining after the anchor
the function returns `None` rather than the lines or an error. -/
theorem extract_by_count_returns_none :
    text_block_from_start_str_length (chars "A") 1 [chars "A", chars "B"] = .ok none ∧
    text_block_from_start_str_length (chars "A") 1 [chars "A", chars "B"]
      ≠ .ok (some [chars "B"]) := by
  decide

/-- C4 (amended): `locate_exact` resolves the target to itself whenever the
target occurs verbatim in the line list; but when the target is absent it
does not in general raise `AnchorNotFound`, nor does it necessarily resolve
to a present whitespace variant: when the space-stripped target lacks
`"= "`, the `'='` to `'= '` substitution of the stripped target is returned
without any membership check. -/
theorem locate_exact_behavior :
    ∀ (line : List Char) (lines : List (List Char)), line ∈ lines →
      handle_spaces line lines = .ok line :=
  fun _ _ h => handle_spaces_mem h

/-- C4 witness: a verbatim anchor resolves to itself. -/
theorem locate_exact_behavior_witness :
    handle_spaces (chars "Reach XY= 4 ") [chars "x", chars "Reach XY= 4 "]
      = .ok (chars "Reach XY= 4 ") :=
  locate_exact_behavior (chars "Reach XY= 4 ") [chars "x", chars "Reach XY= 4 "] (by decide)

/-- C4 counterexample: with the trailing-space variant `"A=1 "` present,
`handle_spaces "A=1"` returns `"A= 1"` — a line not present at all — and
with no variant present, `handle_spaces "Foo=1"` returns `"Foo= 1"`
instead of raising. -/
theorem locate_exact_returns_absent_line :
    (handle_spaces (chars "A=1") [chars "A=1 "] = .ok (chars "A= 1") ∧
      chars "A= 1" ∉ [chars "A=1 "]) ∧
    handle_spaces (chars "Foo=1") [chars "Bar"] = .ok (chars "Foo= 1") := by
  have r1 : replaceChars (chars "=") (chars "= ") (chars "A=1") = chars "A= 1" := by
    show replaceChars ['='] (chars "= ") (['A'] ++ '=' :: ['1']) = _
    rw [replaceChars_cons_tok (chars "= ") ['1'] (by decide),
      replaceChars_no_tok (chars "= ") (by decide)]
    decide
  have r2 : replaceChars (chars "=") (chars "= ") (chars "Foo=1") = chars "Foo= 1" := by
    show replaceChars ['='] (chars "= ") (['F', 'o', 'o'] ++ '=' :: ['1']) = _
    rw [replaceChars_cons_tok (chars "= ") ['1'] (by decide),
      replaceChars_no_tok (chars "= ") (by decide)]
    decide
  have hh1 : handle_spaces_arround_equals (chars "A=1") [chars "A=1 "]
      = some (chars "A= 1") := by
    unfold handle_spaces_arround_equals
    rw [if_neg (by decide), if_neg (by decide), r1]
  have hh2 : handle_spaces_arround_equals (chars "Foo=1") [chars "Bar"]
      = some (chars "Foo= 1") := by
    unfold handle_spaces_arround_equals
    rw [if_neg (by decide), if_neg (by decide), r2]
  have hr1 : rstripSpaces (chars "A=1") = chars "A=1" := by decide
  have hr2 : rstripSpaces (chars "Foo=1") = chars "Foo=1" := by decide
  refine ⟨⟨?_, by decide⟩, ?_⟩
  · unfold handle_spaces
    rw [if_neg (by decide), hr1, hh1]
    decide
  · unfold handle_spaces
    rw [if_neg (by decide), hr2, hh2]
    decide

/-- Left padding with spaces to a field width, as a fixed-width formatter
writes numeric fields. -/
def padLeftSpaces (n : ℕ) (cs : List Char) : List Char :=
  List.replicate (n - cs.length) ' ' ++ cs

/-- Modelled from the spec: the pairing-and-packing encoder ("encoding N
(x,y) pairs at width W") that is not part of the repository.  Each pair
occupies `width` characters: two `width / 2`-character fields holding the
decimal renderings of x and y, right aligned with spaces. -/
def encodePairs (ps : List (FixedDec × FixedDec)) (width : ℕ) : List (List Char) :=
  ps.map fun p => padLeftSpaces (width / 2) (fdStr p.1) ++ padLeftSpaces (width / 2) (fdStr p.2)

theorem dropWhile_append_all {p : Char → Bool} :
    ∀ {a b : List Char}, (∀ c ∈ a, p c = true) → (a ++ b).dropWhile p = b.dropWhile p
  | [], b, _ => rfl
  | c :: a', b, h => by
    have hc : p c = true := h c (List.mem_cons_self c a')
    simp only [List.cons_append, List.dropWhile, hc]
    exact dropWhile_append_all fun d hd => h d (List.mem_cons_of_mem c hd)

theorem trimChars_pad (j : ℕ) (fd : FixedDec) :
    trimChars (List.replicate j ' ' ++ fdStr fd) = fdStr fd := by
  unfold trimChars
  rw [dropWhile_append_all (by intro c hc; rw [List.eq_of_mem_replicate hc]; decide)]
  rw [dropWhile_eq_self_of_head
    (fun c hc => fdStr_no_ws fd c (List.mem_of_mem_head? hc))]
  exact rstripAll_eq_self (fdStr_no_ws fd)

theorem pyFloat_pad (n : ℕ) (fd : FixedDec) :
    pyFloat (padLeftSpaces n (fdStr fd)) = .ok (fdToRat fd) := by
  unfold pyFloat padLeftSpaces
  rw [trimChars_pad, pyFloatCore_fdStr]

theorem padLeftSpaces_length {n : ℕ} {cs : List Char} (h : cs.length ≤ n) :
    (padLeftSpaces n cs).length = n := by
  unfold padLeftSpaces
  simp
  omega

theorem take_append_exact {a b : List Char} {n : ℕ} (h : a.length = n) :
    (a ++ b).take n = a := by
  rw [← h]
  exact List.take_left a b

theorem drop_append_exact {a b : List Char} {n : ℕ} (h : a.length = n) :
    (a ++ b).drop n = b := by
  rw [← h]
  exact List.drop_left a b

theorem encode_line_take {w : ℕ} {x y : FixedDec}
    (hx : (fdStr x).length ≤ w / 2) (hy : (fdStr y).length ≤ w / 2) :
    (padLeftSpaces (w / 2) (fdStr x) ++ padLeftSpaces (w / 2) (fdStr y)).take (w / 2)
      = padLeftSpaces (w / 2) (fdStr x) :=
  take_append_exact (padLeftSpaces_length hx)

theorem encode_line_drop {w : ℕ} {x y : FixedDec}
    (hx : (fdStr x).length ≤ w / 2) (hy : (fdStr y).length ≤ w / 2) :
    (padLeftSpaces (w / 2) (fdStr x) ++ padLeftSpaces (w / 2) (fdStr y)).drop (w / 2)
      = padLeftSpaces (w / 2) (fdStr y) :=
  drop_append_exact (padLeftSpaces_length hx)

theorem exceptOkBind {e a b : Type} (v : a) (f : a → Except e b) :
    (Except.ok v >>= f : Except e b) = f v := rfl

theorem exceptPure {e a : Type} (v : a) : (pure v : Except e a) = Except.ok v := rfl

theorem encode_line_chunks {w : ℕ} {x y : FixedDec} (hw : 0 < w) (hw2 : w % 2 = 0)
    (hx : (fdStr x).length ≤ w / 2) (hy : (fdStr y).length ≤ w / 2) :
    chunksOf w (padLeftSpaces (w / 2) (fdStr x) ++ padLeftSpaces (w / 2) (fdStr y))
      = [padLeftSpaces (w / 2) (fdStr x) ++ padLeftSpaces (w / 2) (fdStr y)] := by
  have hlen : (padLeftSpaces (w / 2) (fdStr x) ++ padLeftSpaces (w / 2) (fdStr y)).length = w := by
    rw [List.length_append, padLeftSpaces_length hx, padLeftSpaces_length hy]
    omega
  have hne : padLeftSpaces (w / 2) (fdStr x) ++ padLeftSpaces (w / 2) (fdStr y) ≠ [] := by
    intro hc
    rw [hc] at hlen
    simp at hlen
    omega
  rw [chunksOf_eval (by omega) hne]
  rw [List.take_of_length_le (by omega), List.drop_eq_nil_of_le (by omega), chunksOf_nil]

theorem data_pairs_encode_aux {w : ℕ} (hw : 0 < w) (hw2 : w % 2 = 0) :
    ∀ (ps : List (FixedDec × FixedDec)) (acc : List (ℚ × ℚ)),
      (∀ p ∈ ps, (fdStr p.1).length ≤ w / 2 ∧ (fdStr p.2).length ≤ w / 2) →
      (encodePairs ps w).foldlM (fun acc line =>
        (chunksOf w line).foldlM (fun acc2 chunk => do
          let x ← pyFloat (chunk.take (w / 2))
          let y ← pyFloat (chunk.drop (w / 2))
          pure (acc2 ++ [(x, y)])) acc) acc
      = .ok (acc ++ ps.map fun p => (fdToRat p.1, fdToRat p.2))
  | [], acc, _ => by
    simp only [encodePairs, List.map_nil, List.foldlM_nil, List.map_nil, List.append_nil]
    rfl
  | p :: ps', acc, hfit => by
    have hp := hfit p (List.mem_cons_self p ps')
    have hih := data_pairs_encode_aux hw hw2 ps' (acc ++ [(fdToRat p.1, fdToRat p.2)])
      (fun q hq => hfit q (List.mem_cons_of_mem p hq))
    simp only [encodePairs, List.map_cons, List.foldlM_cons]
    rw [encode_line_chunks hw hw2 hp.1 hp.2]
    simp only [List.foldlM_cons, List.foldlM_nil]
    rw [encode_line_take hp.1 hp.2, pyFloat_pad]
    simp only [exceptOkBind]
    rw [encode_line_drop hp.1 hp.2, pyFloat_pad]
    simp only [exceptOkBind, bind_pure, pure_bind]
    have hmap : (List.map (fun q => padLeftSpaces (w / 2) (fdStr q.1) ++
        padLeftSpaces (w / 2) (fdStr q.2)) ps') = encodePairs ps' w := rfl
    rw [hmap, hih]
    simp

/-- C8: decoding after encoding reproduces the pairs.  For every list of
fixed-decimal (x, y) pairs and every positive even field width whose half
width holds each rendered value, `data_pairs_from_text_block` applied to
the packed lines at that width returns exactly the encoded rational pairs
(decode is a left inverse of the encoder; exact in ℚ, hence within any
floating-point tolerance). -/
theorem decode_packed_pairs_left_inverse (ps : List (FixedDec × FixedDec)) (w : ℕ)
    (hw : 0 < w) (hw2 : w % 2 = 0)
    (hfit : ∀ p ∈ ps, (fdStr p.1).length ≤ w / 2 ∧ (fdStr p.2).length ≤ w / 2) :
    data_pairs_from_text_block (encodePairs ps w) w
      = .ok (ps.map fun p => (fdToRat p.1, fdToRat p.2)) := by
  unfold data_pairs_from_text_block
  rw [data_pairs_encode_aux hw hw2 ps [] hfit]
  simp

/-- C8 witness: two pairs encoded at width 16 decode to the same values. -/
theorem decode_packed_pairs_left_inverse_witness :
    data_pairs_from_text_block
      (encodePairs [(⟨1205, 1⟩, ⟨35, 1⟩), (⟨-42, 2⟩, ⟨7, 0⟩)] 16) 16
      = .ok [((1205 : ℚ) / 10 ^ 1, (35 : ℚ) / 10 ^ 1), ((-42 : ℚ) / 10 ^ 2, (7 : ℚ) / 10 ^ 0)] :=
  decode_packed_pairs_left_inverse [(⟨1205, 1⟩, ⟨35, 1⟩), (⟨-42, 2⟩, ⟨7, 0⟩)] 16
    (by decide) (by decide)
    (by
      have h1 : fdStr ⟨1205, 1⟩ = ['1', '2', '0', '.', '5'] := by
        simp [fdStr, fracChars, natToChars, digitChar]
      have h2 : fdStr ⟨35, 1⟩ = ['3', '.', '5'] := by
        simp [fdStr, fracChars, natToChars, digitChar]
      have h3 : fdStr ⟨-42, 2⟩ = ['-', '0', '.', '4', '2'] := by
        simp [fdStr, fracChars, natToChars, digitChar]
      have h4 : fdStr ⟨7, 0⟩ = ['7', '.', '0'] := by
        simp [fdStr, fracChars, natToChars, digitChar]
      intro p hp
      rcases List.mem_cons.1 hp with hp1 | hp1
      · subst hp1
        rw [show (((⟨1205, 1⟩, ⟨35, 1⟩) : FixedDec × FixedDec)).1 = ⟨1205, 1⟩ from rfl,
          show (((⟨1205, 1⟩, ⟨35, 1⟩) : FixedDec × FixedDec)).2 = ⟨35, 1⟩ from rfl, h1, h2]
        exact ⟨by decide, by decide⟩
      · rcases List.mem_cons.1 hp1 with hp2 | hp2
        · subst hp2
          rw [show (((⟨-42, 2⟩, ⟨7, 0⟩) : FixedDec × FixedDec)).1 = ⟨-42, 2⟩ from rfl,
            show (((⟨-42, 2⟩, ⟨7, 0⟩) : FixedDec × FixedDec)).2 = ⟨7, 0⟩ from rfl, h3, h4]
          exact ⟨by decide, by decide⟩
        · exact absurd hp2 (List.not_mem_nil p))

/-- Ceiling of `n / 2`, as Python `math.ceil(n / 2)`. -/
def ceilHalf (n : ℤ) : ℤ := -(Int.ediv (-n) 2)

/-- Ceiling of `n / 5`, as Python `math.ceil(n / 5)`. -/
def ceilFifth (n : ℤ) : ℤ := -(Int.ediv (-n) 5)

/-- Model of `XS.split_xs_header` / `Structure.split_structure_header`: the header
value found by `search_contents`, split on commas, at a position. -/
def xsHeaderField (d : List (List Char)) (i : ℕ) : Except (List Char) (List Char) := do
  let h ← searchContentsOne d (chars "Type RM Length L Ch R ") (chars "=")
  let fs := splitChars (chars ",") h
  if i < fs.length then pure (fs.getD i [])
  else .error (chars "IndexError: list index out of range")

/-- Model of `XS.river_station`: float of header field 1 with `"*"` removed. -/
def xs_river_station (d : List (List Char)) : Except (List Char) ℚ := do
  let f ← xsHeaderField d 1
  pyFloat (replaceChars (chars "*") [] f)

/-- Model of `XS.left_reach_length`. -/
def xs_left_reach_length (d : List (List Char)) : Except (List Char) ℚ := do
  let f ← xsHeaderField d 2
  pyFloat f

/-- Model of `XS.channel_reach_length`. -/
def xs_channel_reach_length (d : List (List Char)) : Except (List Char) ℚ := do
  let f ← xsHeaderField d 3
  pyFloat f

/-- Model of `XS.right_reach_length`. -/
def xs_right_reach_length (d : List (List Char)) : Except (List Char) ℚ := do
  let f ← xsHeaderField d 4
  pyFloat f

/-- Model of `XS.number_of_coords`: the `try/except ValueError: return 0` makes a
failed integer parse (or a missing/ambiguous key) yield `0`. -/
def xs_number_of_coords (d : List (List Char)) : Except (List Char) ℤ :=
  catchVE (do
    let v ← searchContentsOne d (chars "XS GIS Cut Line") (chars "=")
    pyInt v) 0

/-- Model of `XS.coords`: block of `ceil(n/2)` lines after `"XS GIS Cut Line={n}"`,
decoded at width 32; a falsy block (Python `None` or `[]`) yields `None`. -/
def xs_coords (d : List (List Char)) : Except (List Char) (Option (List (ℚ × ℚ))) := do
  let n ← xs_number_of_coords d
  let lines ← text_block_from_start_str_length
    (chars "XS GIS Cut Line=" ++ intToChars n) (ceilHalf n) d
  match lines with
  | none => pure none
  | some ls =>
    if ls.isEmpty then pure none
    else do
      let ps ← data_pairs_from_text_block ls 32
      pure (some ps)

/-- Model of `XS.number_of_station_elevation_points` (no `try`: parse errors raise). -/
def xs_number_of_sta (d : List (List Char)) : Except (List Char) ℤ := do
  let v ← searchContentsOne d (chars "#Sta/Elev") (chars "=")
  pyInt v

/-- Model of `XS.station_elevation_points`: the whole body is inside
`try/except ValueError: return None`; a `None` block reaching
`data_pairs_from_text_block` is a `TypeError` (not caught). -/
def xs_station_elevation_points (d : List (List Char)) :
    Except (List Char) (Option (List (ℚ × ℚ))) :=
  catchVE (do
    let n ← xs_number_of_sta d
    let lines ← text_block_from_start_str_length
      (chars "#Sta/Elev= " ++ intToChars n ++ chars " ") (ceilFifth n) d
    match lines with
    | none => .error (chars "TypeError: argument of type NoneType is not iterable")
    | some ls => do
      let ps ← data_pairs_from_text_block ls 16
      pure (some ps)) none

/-- Model of `XS.bank_stations`: the `"Bank Sta"` value split on commas. -/
def xs_bank_stations (d : List (List Char)) : Except (List Char) (List (List Char)) := do
  let v ← searchContentsOne d (chars "Bank Sta") (chars "=")
  pure (splitChars (chars ",") v)

/-- Injective model of Python `repr(float)` used in the f-string key
`f"{river} {reach} {river_station}"`. -/
def ratToChars (q : ℚ) : List Char := intToChars q.num ++ '/' :: natToChars q.den

/-- Key `f"{river} {reach} {rs}"` of a cross section or structure. -/
def xsKeyOf (river reach : List Char) (rs : ℚ) : List Char :=
  river ++ (' ' :: (reach ++ ' ' :: ratToChars rs))

/-- State of a constructed `XS` object (fields assigned in `XS.__init__`). -/
structure XSRec where
  ras_data : List (List Char)
  crs : List Char
  river : List Char
  reach : List Char
  river_reach : List Char
  river_station : ℚ
  river_reach_rs : List Char
deriving DecidableEq

/-- Model of `XS.__init__`: `river_station` is computed eagerly through
`river_reach_rs`, so construction fails when the header does not parse. -/
def xsInit (d : List (List Char)) (river_reach river reach crs : List Char) :
    Except (List Char) XSRec := do
  let rs ← xs_river_station d
  pure ⟨d, crs, river, reach, river_reach, rs, xsKeyOf river reach rs⟩

/-- State of a constructed `Structure` object. -/
structure StructRec where
  ras_data : List (List Char)
  crs : List Char
  river : List Char
  reach : List Char
  river_reach : List Char
  river_station : ℚ
  river_reach_rs : List Char
  us_xs : XSRec
deriving DecidableEq

/-- Model of `Structure.river_station`: float of header field 1 (no `"*"` strip). -/
def struct_river_station (d : List (List Char)) : Except (List Char) ℚ := do
  let f ← xsHeaderField d 1
  pyFloat f

/-- Model of `Structure.__init__` (also computes `river_reach_rs` eagerly); `us_xs`
is the most recently constructed `XS` of the surrounding loop. -/
def structInit (d : List (List Char)) (river_reach river reach crs : List Char)
    (us : XSRec) : Except (List Char) StructRec := do
  let rs ← struct_river_station d
  pure ⟨d, crs, river, reach, river_reach, rs, xsKeyOf river reach rs, us⟩

/-- State of a constructed `Reach` object. -/
structure ReachRec where
  ras_data : List (List Char)
  river_reach : List Char
  river : List Char
  reach : List Char
  crs : List Char
deriving DecidableEq

/-- Model of `Reach.__init__`: the reach block is cut from the whole document with a
`-1` back-off, and river/reach names come from splitting the header value
on a comma. -/
def reachInit (geom : List (List Char)) (river_reach crs : List Char) :
    Except (List Char) ReachRec := do
  let reach_lines ← text_block_from_start_end_str (chars "River Reach=" ++ river_reach)
    [chars "River Reach"] geom (-1)
  let parts := splitChars (chars ",") river_reach
  if 2 ≤ parts.length then
    pure ⟨reach_lines, river_reach,
      rstripAll (parts.getD 0 []), rstripAll (parts.getD 1 []), crs⟩
  else .error (chars "IndexError: list index out of range")

/-- Model of `Reach.reach_nodes`: all `"Type RM Length L Ch R "` header values. -/
def reach_nodes (r : ReachRec) : List (List Char) :=
  searchResults r.ras_data (chars "Type RM Length L Ch R ") (chars "=")

/-- Python `dict` as an insertion-ordered association list; an existing key
is replaced in place. -/
def dictInsert {α : Type} : List (List Char × α) → List Char → α → List (List Char × α)
  | [], k, v => [(k, v)]
  | p :: rest, k, v => if p.1 = k then (k, v) :: rest else p :: dictInsert rest k v

/-- Terminators used for every node sub-block. -/
def nodeTerms : List (List Char) := [chars "Type RM Length L Ch R", chars "River Reach"]

/-- Loop body of `Reach.cross_sections`: type-code 1 headers produce `XS`
entries keyed by `river_reach_rs`, all other codes are skipped. -/
def reachXSLoop (r : ReachRec) :
    List (List Char) → List (List Char × XSRec) → Except (List Char) (List (List Char × XSRec))
  | [], acc => .ok acc
  | h :: rest, acc => do
    let fs := splitChars (chars ",") h
    if 5 ≤ fs.length then
      let ty ← pyInt (fs.getD 0 [])
      if ty ≠ 1 then reachXSLoop r rest acc
      else do
        let xs_lines ← text_block_from_start_end_str
          (chars "Type RM Length L Ch R =" ++ h) nodeTerms r.ras_data 0
        let xs ← xsInit xs_lines r.river_reach r.river r.reach r.crs
        reachXSLoop r rest (dictInsert acc xs.river_reach_rs xs)
    else .error (chars "ValueError: not enough values to unpack")

/-- Model of `Reach.cross_sections`. -/
def reach_cross_sections (r : ReachRec) : Except (List Char) (List (List Char × XSRec)) :=
  reachXSLoop r (reach_nodes r) []

/-- The `TypeError` message raised by `Reach.structures` for an unsupported
type code: it names the code and the supported set 2-6. -/
def unsupportedMsg (ty : ℤ) : List Char :=
  chars "TypeError: Unsupported structure type: " ++ intToChars ty ++
    chars ". Supported structure types are 2, 3, 4, 5, and 6 corresponding to culvert, bridge, multiple openeing, inline structure, lateral structure, respectively"

/-- Loop body of `Reach.structures`: code 1 re-parses the cross section and
remembers it; codes 2-6 build a `Structure` whose upstream section is the
remembered one (`UnboundLocalError` when none was seen); any other code
raises `TypeError` naming the code and the supported set. -/
def reachStructLoop (r : ReachRec) :
    List (List Char) → Option XSRec → List (List Char × StructRec) →
    Except (List Char) (List (List Char × StructRec))
  | [], _, acc => .ok acc
  | h :: rest, cur, acc => do
    let fs := splitChars (chars ",") h
    if 5 ≤ fs.length then
      let ty ← pyInt (fs.getD 0 [])
      if ty = 1 then do
        let xs_lines ← text_block_from_start_end_str
          (chars "Type RM Length L Ch R =" ++ h) nodeTerms r.ras_data 0
        let xs ← xsInit xs_lines r.river_reach r.river r.reach r.crs
        reachStructLoop r rest (some xs) acc
      else if ty ∈ ([2, 3, 4, 5, 6] : List ℤ) then do
        let st_lines ← text_block_from_start_end_str
          (chars "Type RM Length L Ch R =" ++ h) nodeTerms r.ras_data 0
        match cur with
        | none =>
          .error (chars "UnboundLocalError: local variable cross_section referenced before assignment")
        | some xs => do
          let st ← structInit st_lines r.river_reach r.river r.reach r.crs xs
          reachStructLoop r rest cur (dictInsert acc st.river_reach_rs st)
      else .error (unsupportedMsg ty)
    else .error (chars "ValueError: not enough values to unpack")

/-- Model of `Reach.structures`. -/
def reach_structures (r : ReachRec) : Except (List Char) (List (List Char × StructRec)) :=
  reachStructLoop r (reach_nodes r) none []

/-- Character class of the variable parts of a generated node header:
digits, minus and dot (every character a rendered number can contain). -/
def numChar (c : Char) : Bool := c.isDigit || c == '-' || c == '.'

/-- Header line of the generated single-reach document. -/
def hdrLine : List Char := chars "River Reach=River1,Reach1"

/-- Header value (after `=`) of a generated node with type code `c` and
river station `s`: e.g. `" 1 ,83554.5,10,10,10"`. -/
def nodeVal (c : ℤ) (s : FixedDec) : List Char :=
  chars " " ++ (intToChars c ++ (chars " ," ++ (fdStr s ++ chars ",10,10,10")))

/-- Full node header line of a generated node. -/
def nodeLine (c : ℤ) (s : FixedDec) : List Char :=
  chars "Type RM Length L Ch R =" ++ nodeVal c s

/-- Generated geometry document: one `River Reach` header followed by one
node header line per node. -/
def mkGeomDoc (nodes : List (ℤ × FixedDec)) : List (List Char) :=
  hdrLine :: nodes.map fun p => nodeLine p.1 p.2

theorem intToChars_num (z : ℤ) : ∀ c ∈ intToChars z, numChar c = true := by
  intro c hc
  rcases intToChars_all z c hc with h | h
  · simp [numChar, h]
  · simp [numChar, h]

theorem fdStr_num (s : FixedDec) : ∀ c ∈ fdStr s, numChar c = true := by
  intro c hc
  rcases fdStr_all s c hc with h | h | h
  · simp [numChar, h]
  · simp [numChar, h]
  · simp [numChar, h]

theorem nodeLine_eq_c0 (c : ℤ) (s : FixedDec) :
    nodeLine c s = chars "Type RM Length L Ch R = " ++
      (intToChars c ++ (chars " ," ++ (fdStr s ++ chars ",10,10,10"))) := by
  unfold nodeLine nodeVal
  rw [← List.append_assoc]
  congr 1

theorem prefixExtend {pat c0 : List Char} (h : pat <+: c0) (X : List Char) :
    pat <+: c0 ++ X := by
  rcases h with ⟨t, ht⟩
  exact ⟨t ++ X, by rw [← List.append_assoc, ht]⟩

theorem nodeLine_no_riverreach (c : ℤ) (s : FixedDec) :
    containsSub (nodeLine c s) (chars "River Reach") = false := by
  rw [nodeLine_eq_c0]
  rw [containsSub_sep _ _ numChar (by decide) (by decide)
    (intToChars_ne_nil c) (intToChars_num c)]
  rw [containsSub_sep _ _ numChar (by decide) (by decide)
    (fdStr_ne_nil s) (fdStr_num s)]
  decide

theorem nodeLine_has_typerm (c : ℤ) (s : FixedDec) :
    containsSub (nodeLine c s) (chars "Type RM Length L Ch R =") = true := by
  unfold nodeLine
  exact containsSub_of_prefix (prefixExtend (by decide) _)

theorem nodeLine_terms_any (c : ℤ) (s : FixedDec) :
    (nodeTerms.any fun τ => containsSub (nodeLine c s) τ) = true := by
  unfold nodeTerms
  simp only [List.any_cons, List.any_nil, Bool.or_eq_true]
  left
  rw [nodeLine_eq_c0]
  apply containsSub_of_prefix
  exact prefixExtend (by decide) _

theorem hdrLine_no_typerm :
    containsSub hdrLine (chars "Type RM Length L Ch R =") = false := by decide

theorem sep_split {sep : Char} :
    ∀ {a a' b b' : List Char}, sep ∉ a → sep ∉ a' →
      a ++ sep :: b = a' ++ sep :: b' → a = a' ∧ b = b'
  | [], [], b, b', _, _, h => by
    simp at h
    exact ⟨rfl, h⟩
  | [], x :: a', b, b', _, ha', h => by
    rw [List.nil_append, List.cons_append] at h
    injection h with h1 h2
    subst h1
    exact absurd (List.mem_cons_self sep a') ha'
  | x :: a, [], b, b', ha, _, h => by
    rw [List.nil_append, List.cons_append] at h
    injection h with h1 h2
    have hm : sep ∈ x :: a := by
      rw [h1]
      exact List.mem_cons_self sep a
    exact absurd hm ha
  | x :: a, y :: a', b, b', ha, ha', h => by
    rw [List.cons_append, List.cons_append] at h
    injection h with h1 h2
    have := sep_split (fun hm => ha (List.mem_cons_of_mem x hm))
      (fun hm => ha' (List.mem_cons_of_mem y hm)) h2
    exact ⟨by rw [h1, this.1], this.2⟩

theorem comma_notin_num {l : List Char} (h : ∀ c ∈ l, numChar c = true) : ',' ∉ l := by
  intro hc
  have := h ',' hc
  simp [numChar] at this

theorem eq_notin_num {l : List Char} (h : ∀ c ∈ l, numChar c = true) : '=' ∉ l := by
  intro hc
  have := h '=' hc
  simp [numChar] at this

theorem star_notin_fdStr (s : FixedDec) : '*' ∉ fdStr s := by
  intro hc
  have := fdStr_num s '*' hc
  simp [numChar] at this

theorem eq_notin_nodeVal (c : ℤ) (s : FixedDec) : '=' ∉ nodeVal c s := by
  unfold nodeVal
  intro hmem
  rcases List.mem_append.1 hmem with h | h
  · simp [chars] at h
  · rcases List.mem_append.1 h with h1 | h1
    · exact eq_notin_num (intToChars_num c) h1
    · rcases List.mem_append.1 h1 with h2 | h2
      · simp [chars] at h2
      · rcases List.mem_append.1 h2 with h3 | h3
        · exact eq_notin_num (fdStr_num s) h3
        · simp [chars] at h3

theorem nodeLine_split_eq (c : ℤ) (s : FixedDec) :
    splitChars (chars "=") (nodeLine c s)
      = [chars "Type RM Length L Ch R ", nodeVal c s] := by
  have he : nodeLine c s = chars "Type RM Length L Ch R " ++ '=' :: nodeVal c s := by
    unfold nodeLine
    rw [show chars "Type RM Length L Ch R =" = chars "Type RM Length L Ch R " ++ ['='] by decide]
    simp
  rw [he]
  show splitChars ['='] _ = _
  rw [splitChars_cons_tok (nodeVal c s) (by decide),
    splitChars_no_tok (eq_notin_nodeVal c s)]

theorem ten_fields : splitChars [','] (chars "10,10,10")
    = [chars "10", chars "10", chars "10"] := by
  rw [show chars "10,10,10" = chars "10" ++ ',' :: (chars "10" ++ ',' :: chars "10") by decide]
  rw [splitChars_cons_tok _ (by decide), splitChars_cons_tok _ (by decide),
    splitChars_no_tok (by decide)]

theorem nodeVal_fields (c : ℤ) (s : FixedDec) :
    splitChars (chars ",") (nodeVal c s)
      = [chars " " ++ (intToChars c ++ chars " "), fdStr s, chars "10", chars "10", chars "10"] := by
  have he : nodeVal c s = (chars " " ++ (intToChars c ++ chars " ")) ++
      ',' :: (fdStr s ++ ',' :: chars "10,10,10") := by
    unfold nodeVal
    rw [show chars " ," = chars " " ++ [','] by decide,
      show chars ",10,10,10" = [','] ++ chars "10,10,10" by decide]
    simp
  rw [he]
  show splitChars [','] _ = _
  rw [splitChars_cons_tok _ ?ha]
  case ha =>
    intro hmem
    rcases List.mem_append.1 hmem with h | h
    · simp [chars] at h
    · rcases List.mem_append.1 h with h1 | h1
      · exact comma_notin_num (intToChars_num c) h1
      · simp [chars] at h1
  rw [splitChars_cons_tok _ (comma_notin_num (fdStr_num s)), ten_fields]

theorem nodeVal_injOnRat {c1 c2 : ℤ} {s1 s2 : FixedDec}
    (h : nodeVal c1 s1 = nodeVal c2 s2) : fdToRat s1 = fdToRat s2 := by
  have h2 := congrArg (splitChars (chars ",")) h
  rw [nodeVal_fields, nodeVal_fields] at h2
  injection h2 with e1 h3
  injection h3 with e2 h4
  exact fdStr_injOnRat e2

theorem nodeLine_injOnRat {c1 c2 : ℤ} {s1 s2 : FixedDec}
    (h : nodeLine c1 s1 = nodeLine c2 s2) : fdToRat s1 = fdToRat s2 := by
  unfold nodeLine at h
  exact nodeVal_injOnRat (List.append_cancel_left h)

theorem nodeLine_ne_hdr (c : ℤ) (s : FixedDec) : nodeLine c s ≠ hdrLine := by
  intro h
  have h2 := congrArg (fun l => l.headD ' ') h
  rw [nodeLine_eq_c0] at h2
  rw [show chars "Type RM Length L Ch R = " = 'T' :: chars "ype RM Length L Ch R = " by decide,
    show hdrLine = 'R' :: chars "iver Reach=River1,Reach1" by decide] at h2
  simp at h2

theorem mem_map_nodeLine {c : ℤ} {s : FixedDec} {l : List (ℤ × FixedDec)}
    (h : nodeLine c s ∈ l.map fun p => nodeLine p.1 p.2) :
    fdToRat s ∈ l.map fun p => fdToRat p.2 := by
  rcases List.mem_map.1 h with ⟨p, hp, he⟩
  exact List.mem_map.2 ⟨p, hp, nodeLine_injOnRat he⟩

theorem searchResults_map_nodes :
    ∀ (l : List (ℤ × FixedDec)),
      searchResults (l.map fun p => nodeLine p.1 p.2)
          (chars "Type RM Length L Ch R ") (chars "=")
        = l.map fun p => nodeVal p.1 p.2
  | [] => rfl
  | p :: l' => by
    unfold searchResults
    rw [List.map_cons, List.filterMap_cons]
    have hkt : chars "Type RM Length L Ch R " ++ chars "="
        = chars "Type RM Length L Ch R =" := by decide
    rw [hkt, nodeLine_has_typerm]
    show (splitChars (chars "=") (nodeLine p.1 p.2)).getD 1 [] ::
      List.filterMap _ (l'.map fun p => nodeLine p.1 p.2) = _
    rw [nodeLine_split_eq]
    have hrest := searchResults_map_nodes l'
    unfold searchResults at hrest
    rw [hkt] at hrest
    rw [List.map_cons]
    congr 1

theorem reach_nodes_mk (nodes : List (ℤ × FixedDec)) (crs : List Char)
    (r : ReachRec) (hr : r.ras_data = mkGeomDoc nodes) :
    reach_nodes r = nodes.map fun p => nodeVal p.1 p.2 := by
  unfold reach_nodes
  rw [hr]
  unfold mkGeomDoc searchResults
  rw [List.filterMap_cons]
  have hkt : chars "Type RM Length L Ch R " ++ chars "="
      = chars "Type RM Length L Ch R =" := by decide
  rw [hkt, hdrLine_no_typerm]
  have := searchResults_map_nodes nodes
  unfold searchResults at this
  rw [hkt] at this
  exact this

/-- The reach record produced by parsing the generated document. -/
def reachRecOf (nodes : List (ℤ × FixedDec)) (crs : List Char) : ReachRec :=
  ⟨mkGeomDoc nodes, chars "River1,Reach1", chars "River1", chars "Reach1", crs⟩

theorem reachInit_mk (nodes : List (ℤ × FixedDec)) (crs : List Char) :
    reachInit (mkGeomDoc nodes) (chars "River1,Reach1") crs
      = .ok (reachRecOf nodes crs) := by
  unfold reachInit
  have hanc : chars "River Reach=" ++ chars "River1,Reach1" = hdrLine := by decide
  rw [hanc]
  have hblock : text_block_from_start_end_str hdrLine [chars "River Reach"]
      (hdrLine :: nodes.map fun p => nodeLine p.1 p.2) (-1)
      = .ok (hdrLine :: nodes.map fun p => nodeLine p.1 p.2) := by
    have h := tb_noterm [] (nodes.map fun p => nodeLine p.1 p.2)
      hdrLine [chars "River Reach"] (-1)
      (by simp)
      (by
        intro l hl
        rcases List.mem_map.1 hl with ⟨p, hp, he⟩
        subst he
        simp only [List.any_cons, List.any_nil, Bool.or_eq_true]
        rw [nodeLine_no_riverreach]
        simp)
    rw [List.nil_append] at h
    exact h
  rw [show mkGeomDoc nodes = hdrLine :: nodes.map (fun p => nodeLine p.1 p.2) from rfl]
  rw [hblock]
  have hsplit : splitChars (chars ",") (chars "River1,Reach1")
      = [chars "River1", chars "Reach1"] := by
    rw [show chars "River1,Reach1" = chars "River1" ++ ',' :: chars "Reach1" by decide]
    show splitChars [','] _ = _
    rw [splitChars_cons_tok _ (by decide), splitChars_no_tok (by decide)]
  simp only [exceptOkBind]
  rw [hsplit]
  have hc : 2 ≤ ([chars "River1", chars "Reach1"] : List (List Char)).length := by simp
  rw [if_pos hc]
  rfl

theorem nodup_middle {g : ℤ × FixedDec → ℚ} {pre post : List (ℤ × FixedDec)}
    {m : ℤ × FixedDec}
    (hnd : ((pre ++ m :: post).map g).Nodup) :
    g m ∉ pre.map g ∧ g m ∉ post.map g := by
  rw [List.map_append, List.map_cons] at hnd
  rcases List.nodup_append.1 hnd with ⟨h1, h2, hdisj⟩
  constructor
  · intro hc
    exact hdisj hc (List.mem_cons_self _ _)
  · exact (List.nodup_cons.1 h2).1

/-- Extraction of the sub-block for one generated node: the block consists of
the node line alone (the next node line, or nothing, terminates it). -/
theorem block_extract_node {pre post : List (ℤ × FixedDec)} {c : ℤ} {s : FixedDec}
    (hnd : (((pre ++ (c, s) :: post).map fun p => fdToRat p.2)).Nodup) :
    text_block_from_start_end_str (nodeLine c s) nodeTerms
      (mkGeomDoc (pre ++ (c, s) :: post)) 0 = .ok [nodeLine c s] := by
  have hmem := nodup_middle hnd
  have hnotA : nodeLine c s ∉ hdrLine :: pre.map fun p => nodeLine p.1 p.2 := by
    intro hc
    rcases List.mem_cons.1 hc with h1 | h1
    · exact nodeLine_ne_hdr c s h1
    · exact hmem.1 (mem_map_nodeLine h1)
  have hdoc : mkGeomDoc (pre ++ (c, s) :: post)
      = (hdrLine :: pre.map fun p => nodeLine p.1 p.2) ++
        nodeLine c s :: post.map fun p => nodeLine p.1 p.2 := by
    unfold mkGeomDoc
    simp
  rw [hdoc]
  cases hp : post with
  | nil =>
    exact tb_noterm (hdrLine :: pre.map fun p : ℤ × FixedDec => nodeLine p.1 p.2)
      (List.map (fun p : ℤ × FixedDec => nodeLine p.1 p.2) []) (nodeLine c s) nodeTerms 0
      hnotA (by simp)
  | cons p2 post' =>
    subst hp
    have h := tb_found (hdrLine :: pre.map fun p : ℤ × FixedDec => nodeLine p.1 p.2) []
      (post'.map fun p : ℤ × FixedDec => nodeLine p.1 p.2) (nodeLine c s)
      (nodeLine p2.1 p2.2) nodeTerms 0
      hnotA
      (by simp)
      (nodeLine_terms_any p2.1 p2.2)
      (by
        intro hc
        rcases List.mem_cons.1 hc with h1 | h1
        · exact nodeLine_ne_hdr p2.1 p2.2 h1
        · have h2 := mem_map_nodeLine h1
          have h4 : fdToRat p2.2 ∈ ((c, s) :: p2 :: post').map fun p => fdToRat p.2 := by
            simp
          rw [List.map_append] at hnd
          rcases List.nodup_append.1 hnd with ⟨_, _, hdisj⟩
          exact hdisj h2 h4)
      (by
        intro hc
        have he := nodeLine_injOnRat hc
        apply hmem.2
        rw [← he]
        simp)
      (by simp)
      (by omega)
      (by omega)
    simp only [List.map_cons]
    simpa using h


theorem searchOne_nodeLine (c : ℤ) (s : FixedDec) :
    searchContentsOne [nodeLine c s] (chars "Type RM Length L Ch R ") (chars "=")
      = .ok (nodeVal c s) := by
  have hsr : searchResults [nodeLine c s] (chars "Type RM Length L Ch R ") (chars "=")
      = [nodeVal c s] := by
    unfold searchResults
    rw [List.filterMap_cons]
    have hkt : chars "Type RM Length L Ch R " ++ chars "="
        = chars "Type RM Length L Ch R =" := by decide
    rw [hkt, nodeLine_has_typerm]
    show (splitChars (chars "=") (nodeLine c s)).getD 1 [] :: List.filterMap _ [] = _
    rw [nodeLine_split_eq]
    rfl
  unfold searchContentsOne
  rw [hsr]
  rfl

theorem trim_wrap {x : List Char} (hx : x ≠ []) (h : ∀ c ∈ x, c.isWhitespace = false) :
    trimChars (chars " " ++ (x ++ chars " ")) = x := by
  unfold trimChars
  rw [show chars " " ++ (x ++ chars " ") = ' ' :: (x ++ [' ']) by simp [chars]]
  rw [show List.dropWhile Char.isWhitespace (' ' :: (x ++ [' ']))
      = List.dropWhile Char.isWhitespace (x ++ [' ']) by simp [List.dropWhile]]
  rw [dropWhile_eq_self_of_head (by
    intro d hd
    cases x with
    | nil => exact absurd rfl hx
    | cons a x' =>
      simp at hd
      subst hd
      exact h a (List.mem_cons_self a x'))]
  unfold rstripAll
  rw [List.reverse_append]
  show (((' ' :: List.nil).reverse ++ x.reverse).dropWhile Char.isWhitespace).reverse = x
  rw [show ((' ' :: List.nil) : List Char).reverse = [' '] from rfl]
  rw [show ([' '] ++ x.reverse : List Char) = ' ' :: x.reverse by simp]
  rw [show List.dropWhile Char.isWhitespace (' ' :: x.reverse)
      = List.dropWhile Char.isWhitespace x.reverse by simp [List.dropWhile]]
  rw [dropWhile_eq_self_of_head (by
    intro d hd
    have := List.mem_of_mem_head? hd
    exact h d ((List.mem_reverse).1 this))]
  exact List.reverse_reverse x

theorem pyInt_field0 (c : ℤ) :
    pyInt (chars " " ++ (intToChars c ++ chars " ")) = .ok c := by
  unfold pyInt
  rw [trim_wrap (intToChars_ne_nil c) (by
    intro d hd
    rcases intToChars_all c d hd with h | h
    · exact isWhitespace_false_of_isDigit h
    · subst h; decide)]
  rw [pyIntCore_intToChars]

theorem xs_river_station_node (c : ℤ) (s : FixedDec) :
    xs_river_station [nodeLine c s] = .ok (fdToRat s) := by
  unfold xs_river_station xsHeaderField
  rw [searchOne_nodeLine]
  simp only [exceptOkBind]
  rw [nodeVal_fields]
  rw [if_pos (by simp)]
  show pyFloat (replaceChars (chars "*") [] ((([chars " " ++ (intToChars c ++ chars " "),
    fdStr s, chars "10", chars "10", chars "10"] : List (List Char))).getD 1 [])) = _
  rw [show (([chars " " ++ (intToChars c ++ chars " "), fdStr s, chars "10", chars "10",
    chars "10"] : List (List Char))).getD 1 [] = fdStr s from rfl]
  rw [show (chars "*") = ['*'] from rfl]
  rw [replaceChars_no_tok [] (star_notin_fdStr s)]
  exact pyFloat_fdStr s

/-- The `XS` record produced for a generated node. -/
def xsRecOf (crs : List Char) (c : ℤ) (s : FixedDec) : XSRec :=
  ⟨[nodeLine c s], crs, chars "River1", chars "Reach1", chars "River1,Reach1", fdToRat s,
    xsKeyOf (chars "River1") (chars "Reach1") (fdToRat s)⟩

/-- The dictionary entry produced for a generated node. -/
def xsEntry (crs : List Char) (p : ℤ × FixedDec) : List Char × XSRec :=
  (xsKeyOf (chars "River1") (chars "Reach1") (fdToRat p.2), xsRecOf crs p.1 p.2)

theorem xsInit_node (crs : List Char) (c : ℤ) (s : FixedDec) :
    xsInit [nodeLine c s] (chars "River1,Reach1") (chars "River1") (chars "Reach1") crs
      = .ok (xsRecOf crs c s) := by
  unfold xsInit
  rw [xs_river_station_node]
  rfl

theorem intToChars_inj {a b : ℤ} (h : intToChars a = intToChars b) : a = b := by
  have ha := pyIntCore_intToChars a
  rw [h, pyIntCore_intToChars b] at ha
  injection ha with h1
  exact h1.symm

theorem slash_notin_intToChars (z : ℤ) : '/' ∉ intToChars z := by
  intro hc
  rcases intToChars_all z '/' hc with h | h
  · exact absurd h (by decide)
  · exact absurd h (by decide)

theorem ratToChars_inj {p q : ℚ} (h : ratToChars p = ratToChars q) : p = q := by
  unfold ratToChars at h
  have hs := sep_split (slash_notin_intToChars p.num) (slash_notin_intToChars q.num) h
  exact Rat.ext (intToChars_inj hs.1) (natToChars_injective hs.2)

theorem xsKeyOf_inj {river reach : List Char} {p q : ℚ}
    (h : xsKeyOf river reach p = xsKeyOf river reach q) : p = q := by
  unfold xsKeyOf at h
  have h1 := List.append_cancel_left h
  injection h1 with _ h2
  have h3 := List.append_cancel_left h2
  injection h3 with _ h4
  exact ratToChars_inj h4

theorem dictInsert_fresh {α : Type} :
    ∀ (acc : List (List Char × α)) (k : List Char) (v : α),
      k ∉ acc.map Prod.fst → dictInsert acc k v = acc ++ [(k, v)]
  | [], _, _, _ => rfl
  | p :: rest, k, v, h => by
    unfold dictInsert
    rw [if_neg (by
      intro he
      rw [List.map_cons, ← he] at h
      exact h (List.mem_cons_self p.1 _))]
    rw [dictInsert_fresh rest k v (by
      intro hm
      rw [List.map_cons] at h
      exact h (List.mem_cons_of_mem p.1 hm))]
    simp

theorem xsLoop_mk (crs : List Char) :
    ∀ (rem pre : List (ℤ × FixedDec)) (acc : List (List Char × XSRec)),
      (((pre ++ rem).map fun p => fdToRat p.2)).Nodup →
      (∀ p ∈ rem, p.1 = 1) →
      (∀ p ∈ rem,
        xsKeyOf (chars "River1") (chars "Reach1") (fdToRat p.2) ∉ acc.map Prod.fst) →
      reachXSLoop (reachRecOf (pre ++ rem) crs) (rem.map fun p => nodeVal p.1 p.2) acc
        = .ok (acc ++ rem.map (xsEntry crs))
  | [], pre, acc, _, _, _ => by simp [reachXSLoop]
  | (c, s) :: rem', pre, acc, hnd, hcodes, hfresh => by
    have hcode : c = 1 := hcodes (c, s) (List.mem_cons_self _ _)
    subst hcode
    rw [List.map_cons, List.map_cons, reachXSLoop]
    rw [nodeVal_fields]
    rw [if_pos (by simp)]
    rw [show (([chars " " ++ (intToChars 1 ++ chars " "), fdStr s, chars "10", chars "10",
      chars "10"] : List (List Char))).getD 0 [] = chars " " ++ (intToChars 1 ++ chars " ")
      from rfl]
    rw [pyInt_field0]
    rw [exceptOkBind]
    rw [if_neg (by decide)]
    rw [show chars "Type RM Length L Ch R =" ++ nodeVal 1 s = nodeLine 1 s from rfl]
    rw [show (reachRecOf (pre ++ (1, s) :: rem') crs).ras_data
      = mkGeomDoc (pre ++ (1, s) :: rem') from rfl]
    rw [block_extract_node hnd]
    rw [exceptOkBind]
    rw [show (reachRecOf (pre ++ (1, s) :: rem') crs).river_reach
      = chars "River1,Reach1" from rfl,
      show (reachRecOf (pre ++ (1, s) :: rem') crs).river = chars "River1" from rfl,
      show (reachRecOf (pre ++ (1, s) :: rem') crs).reach = chars "Reach1" from rfl,
      show (reachRecOf (pre ++ (1, s) :: rem') crs).crs = crs from rfl]
    rw [xsInit_node]
    rw [exceptOkBind]
    rw [show (xsRecOf crs 1 s).river_reach_rs
      = xsKeyOf (chars "River1") (chars "Reach1") (fdToRat s) from rfl]
    rw [dictInsert_fresh acc _ _ (hfresh (1, s) (List.mem_cons_self _ _))]
    have hmem := nodup_middle hnd
    have hIH := xsLoop_mk crs rem' (pre ++ [(1, s)])
      (acc ++ [(xsKeyOf (chars "River1") (chars "Reach1") (fdToRat s), xsRecOf crs 1 s)])
      (by
        have he : (pre ++ [(1, s)]) ++ rem' = pre ++ (1, s) :: rem' := by simp
        rw [he]
        exact hnd)
      (fun p hp => hcodes p (List.mem_cons_of_mem _ hp))
      (by
        intro p hp hk
        rw [List.map_append] at hk
        rcases List.mem_append.1 hk with h1 | h1
        · exact hfresh p (List.mem_cons_of_mem _ hp) h1
        · have h2 : xsKeyOf (chars "River1") (chars "Reach1") (fdToRat p.2)
              = xsKeyOf (chars "River1") (chars "Reach1") (fdToRat s) := by
            simpa using h1
          have h3 := xsKeyOf_inj h2
          apply hmem.2
          rw [← h3]
          exact List.mem_map.2 ⟨p, hp, rfl⟩)
    have he : (pre ++ [(1, s)]) ++ rem' = pre ++ (1, s) :: rem' := by simp
    rw [he] at hIH
    rw [hIH]
    rw [show xsEntry crs (1, s)
      = (xsKeyOf (chars "River1") (chars "Reach1") (fdToRat s), xsRecOf crs 1 s) from rfl]
    simp

theorem cross_sections_mk (nodes : List (ℤ × FixedDec)) (crs : List Char)
    (hnd : ((nodes.map fun p => fdToRat p.2)).Nodup)
    (hcodes : ∀ p ∈ nodes, p.1 = 1) :
    reach_cross_sections (reachRecOf nodes crs) = .ok (nodes.map (xsEntry crs)) := by
  unfold reach_cross_sections
  rw [reach_nodes_mk nodes crs _ rfl]
  have h := xsLoop_mk crs nodes [] [] (by simpa using hnd) hcodes (by simp)
  simpa using h

/-- The `Structure` record produced for a generated node with upstream
cross section `us`. -/
def structRecOf (crs : List Char) (c : ℤ) (s : FixedDec) (us : XSRec) : StructRec :=
  ⟨[nodeLine c s], crs, chars "River1", chars "Reach1", chars "River1,Reach1", fdToRat s,
    xsKeyOf (chars "River1") (chars "Reach1") (fdToRat s), us⟩

theorem structInit_node (crs : List Char) (c : ℤ) (s : FixedDec) (us : XSRec) :
    structInit [nodeLine c s] (chars "River1,Reach1") (chars "River1") (chars "Reach1") crs us
      = .ok (structRecOf crs c s us) := by
  unfold structInit struct_river_station xsHeaderField
  rw [searchOne_nodeLine]
  simp only [exceptOkBind]
  rw [nodeVal_fields]
  rw [if_pos (by simp)]
  show (do
    let f ← (pure (fdStr s) : Except (List Char) (List Char))
    (do
      let rs ← pyFloat f
      pure ⟨[nodeLine c s], crs, chars "River1", chars "Reach1", chars "River1,Reach1", rs,
        xsKeyOf (chars "River1") (chars "Reach1") rs, us⟩ : Except (List Char) StructRec))
    = _
  rw [pure_bind]
  rw [pyFloat_fdStr]
  rfl

theorem structures_unbound_mk (crs : List Char) (c : ℤ) (s : FixedDec)
    (hc1 : c ≠ 1) (hc : c ∈ ([2, 3, 4, 5, 6] : List ℤ)) :
    reach_structures (reachRecOf [(c, s)] crs)
      = .error
        (chars "UnboundLocalError: local variable cross_section referenced before assignment") := by
  unfold reach_structures
  rw [reach_nodes_mk [(c, s)] crs _ rfl]
  rw [List.map_cons, List.map_nil, reachStructLoop]
  rw [nodeVal_fields]
  rw [if_pos (by simp)]
  rw [show (([chars " " ++ (intToChars c ++ chars " "), fdStr s, chars "10", chars "10",
    chars "10"] : List (List Char))).getD 0 [] = chars " " ++ (intToChars c ++ chars " ")
    from rfl]
  rw [pyInt_field0]
  rw [exceptOkBind]
  rw [if_neg hc1]
  rw [if_pos hc]
  rw [show chars "Type RM Length L Ch R =" ++ nodeVal c s = nodeLine c s from rfl]
  rw [show (reachRecOf [(c, s)] crs).ras_data = mkGeomDoc ([] ++ (c, s) :: []) from rfl]
  rw [@block_extract_node [] [] c s (by simp)]
  rfl

theorem structures_mk2 (crs : List Char) (c : ℤ) (s1 s2 : FixedDec)
    (hne : fdToRat s1 ≠ fdToRat s2) (hc1 : c ≠ 1)
    (hc : c ∈ ([2, 3, 4, 5, 6] : List ℤ)) :
    reach_structures (reachRecOf [(1, s1), (c, s2)] crs)
      = .ok [(xsKeyOf (chars "River1") (chars "Reach1") (fdToRat s2),
          structRecOf crs c s2 (xsRecOf crs 1 s1))] := by
  unfold reach_structures
  rw [reach_nodes_mk [(1, s1), (c, s2)] crs _ rfl]
  rw [List.map_cons, List.map_cons, List.map_nil, reachStructLoop]
  rw [nodeVal_fields]
  rw [if_pos (by simp)]
  rw [show (([chars " " ++ (intToChars 1 ++ chars " "), fdStr s1, chars "10", chars "10",
    chars "10"] : List (List Char))).getD 0 [] = chars " " ++ (intToChars 1 ++ chars " ")
    from rfl]
  rw [pyInt_field0]
  rw [exceptOkBind]
  rw [if_pos rfl]
  rw [show chars "Type RM Length L Ch R =" ++ nodeVal 1 s1 = nodeLine 1 s1 from rfl]
  rw [show (reachRecOf [(1, s1), (c, s2)] crs).ras_data
    = mkGeomDoc ([] ++ (1, s1) :: [(c, s2)]) from rfl]
  rw [@block_extract_node [] [(c, s2)] 1 s1 (by simp [hne])]
  rw [exceptOkBind]
  rw [show (reachRecOf [(1, s1), (c, s2)] crs).river_reach = chars "River1,Reach1" from rfl,
    show (reachRecOf [(1, s1), (c, s2)] crs).river = chars "River1" from rfl,
    show (reachRecOf [(1, s1), (c, s2)] crs).reach = chars "Reach1" from rfl,
    show (reachRecOf [(1, s1), (c, s2)] crs).crs = crs from rfl]
  rw [xsInit_node]
  rw [exceptOkBind]
  rw [reachStructLoop]
  rw [nodeVal_fields]
  rw [if_pos (by simp)]
  rw [show (([chars " " ++ (intToChars c ++ chars " "), fdStr s2, chars "10", chars "10",
    chars "10"] : List (List Char))).getD 0 [] = chars " " ++ (intToChars c ++ chars " ")
    from rfl]
  rw [pyInt_field0]
  rw [exceptOkBind]
  rw [if_neg hc1]
  rw [if_pos hc]
  rw [show chars "Type RM Length L Ch R =" ++ nodeVal c s2 = nodeLine c s2 from rfl]
  rw [show (reachRecOf [(1, s1), (c, s2)] crs).ras_data
    = mkGeomDoc ([(1, s1)] ++ (c, s2) :: []) from rfl]
  rw [@block_extract_node [(1, s1)] [] c s2 (by simp [hne])]
  rw [exceptOkBind]
  show (do
    let st ← structInit [nodeLine c s2] (chars "River1,Reach1") (chars "River1")
      (chars "Reach1") crs (xsRecOf crs 1 s1)
    reachStructLoop (reachRecOf [(1, s1), (c, s2)] crs) [] (some (xsRecOf crs 1 s1))
      (dictInsert [] st.river_reach_rs st)) = _
  rw [structInit_node]
  rw [exceptOkBind]
  rfl

theorem structures_badcode_mk2 (crs : List Char) (c : ℤ) (s1 s2 : FixedDec)
    (hne : fdToRat s1 ≠ fdToRat s2)
    (hb : c ∉ ([1, 2, 3, 4, 5, 6] : List ℤ)) :
    reach_structures (reachRecOf [(1, s1), (c, s2)] crs) = .error (unsupportedMsg c) := by
  have hc1 : c ≠ 1 := by
    intro he
    exact hb (by rw [he]; decide)
  have hc2 : c ∉ ([2, 3, 4, 5, 6] : List ℤ) := by
    intro he
    exact hb (List.mem_cons_of_mem 1 he)
  unfold reach_structures
  rw [reach_nodes_mk [(1, s1), (c, s2)] crs _ rfl]
  rw [List.map_cons, List.map_cons, List.map_nil, reachStructLoop]
  rw [nodeVal_fields]
  rw [if_pos (by simp)]
  rw [show (([chars " " ++ (intToChars 1 ++ chars " "), fdStr s1, chars "10", chars "10",
    chars "10"] : List (List Char))).getD 0 [] = chars " " ++ (intToChars 1 ++ chars " ")
    from rfl]
  rw [pyInt_field0]
  rw [exceptOkBind]
  rw [if_pos rfl]
  rw [show chars "Type RM Length L Ch R =" ++ nodeVal 1 s1 = nodeLine 1 s1 from rfl]
  rw [show (reachRecOf [(1, s1), (c, s2)] crs).ras_data
    = mkGeomDoc ([] ++ (1, s1) :: [(c, s2)]) from rfl]
  rw [@block_extract_node [] [(c, s2)] 1 s1 (by simp [hne])]
  rw [exceptOkBind]
  rw [show (reachRecOf [(1, s1), (c, s2)] crs).river_reach = chars "River1,Reach1" from rfl,
    show (reachRecOf [(1, s1), (c, s2)] crs).river = chars "River1" from rfl,
    show (reachRecOf [(1, s1), (c, s2)] crs).reach = chars "Reach1" from rfl,
    show (reachRecOf [(1, s1), (c, s2)] crs).crs = crs from rfl]
  rw [xsInit_node]
  rw [exceptOkBind]
  rw [reachStructLoop]
  rw [nodeVal_fields]
  rw [if_pos (by simp)]
  rw [show (([chars " " ++ (intToChars c ++ chars " "), fdStr s2, chars "10", chars "10",
    chars "10"] : List (List Char))).getD 0 [] = chars " " ++ (intToChars c ++ chars " ")
    from rfl]
  rw [pyInt_field0]
  rw [exceptOkBind]
  rw [if_neg hc1]
  rw [if_neg hc2]

/-- Strictly decreasing stations are in particular pairwise distinct. -/
theorem chain_gt_nodup {l : List ℚ} (h : l.Chain' (· > ·)) : l.Nodup :=
  (List.chain'_iff_pairwise.1 h).imp ne_of_gt

/-- The spec's example stations 120.5, 95.0, 60.2 are strictly decreasing. -/
theorem example_stations_decreasing :
    ((([(1, ⟨1205, 1⟩), (1, ⟨950, 1⟩), (1, ⟨602, 1⟩)] :
      List (ℤ × FixedDec)).map fun p => fdToRat p.2)).Chain' (· > ·) := by
  simp [fdToRat]
  norm_num

/-- The stations 60.2, 95.0 are pairwise distinct (though ascending). -/
theorem ascending_stations_distinct :
    ((([(1, ⟨602, 1⟩), (1, ⟨950, 1⟩)] :
      List (ℤ × FixedDec)).map fun p => fdToRat p.2)).Nodup := by
  simp [fdToRat]
  norm_num

/-- C1 (amended): for a reach whose cross sections appear with strictly
decreasing river stations, `cross_sections` returns them keyed in that
written (hence descending) order; but no `BrokenTopology`-style validation
exists: the written order is preserved whatever it is (see the
counterexample), and a `Structure` encountered before any `CrossSection`
raises Python's accidental `UnboundLocalError` (the loop reads the
`cross_section` local before assignment), not a topology error, with no
check that the upstream section's station is greater. -/
theorem cross_sections_written_order_and_unbound_structure
    (nodes : List (ℤ × FixedDec)) (crs : List Char) (c : ℤ) (s : FixedDec)
    (hdec : ((nodes.map fun p => fdToRat p.2)).Chain' (· > ·))
    (hcodes : ∀ p ∈ nodes, p.1 = 1)
    (hc : c ∈ ([2, 3, 4, 5, 6] : List ℤ)) :
    reach_cross_sections (reachRecOf nodes crs) = .ok (nodes.map (xsEntry crs)) ∧
    reach_structures (reachRecOf [(c, s)] crs)
      = .error
        (chars "UnboundLocalError: local variable cross_section referenced before assignment") := by
  constructor
  · exact cross_sections_mk nodes crs (chain_gt_nodup hdec) hcodes
  · refine structures_unbound_mk crs c s ?_ hc
    intro he
    subst he
    exact absurd hc (by decide)

/-- C1 witness: the spec's stations 120.5, 95.0, 60.2 parse into entries in
that order, and a lone culvert node (code 2) raises `UnboundLocalError`. -/
theorem cross_sections_written_order_and_unbound_structure_witness :
    reach_cross_sections
        (reachRecOf [(1, ⟨1205, 1⟩), (1, ⟨950, 1⟩), (1, ⟨602, 1⟩)] (chars "EPSG:5070"))
      = .ok (([(1, ⟨1205, 1⟩), (1, ⟨950, 1⟩), (1, ⟨602, 1⟩)] :
          List (ℤ × FixedDec)).map (xsEntry (chars "EPSG:5070"))) ∧
    reach_structures (reachRecOf [(2, ⟨100, 0⟩)] (chars "EPSG:5070"))
      = .error
        (chars "UnboundLocalError: local variable cross_section referenced before assignment") :=
  cross_sections_written_order_and_unbound_structure
    [(1, ⟨1205, 1⟩), (1, ⟨950, 1⟩), (1, ⟨602, 1⟩)] (chars "EPSG:5070") 2 ⟨100, 0⟩
    example_stations_decreasing (by decide) (by decide)

/-- C1 counterexample: stations supplied out of order (60.2 then 95.0)
do not raise any `BrokenTopology`-kind error; parsing succeeds and keeps
the written order. -/
theorem cross_sections_accepts_unordered_stations :
    reach_cross_sections (reachRecOf [(1, ⟨602, 1⟩), (1, ⟨950, 1⟩)] (chars "EPSG:5070"))
      = .ok (([(1, ⟨602, 1⟩), (1, ⟨950, 1⟩)] :
          List (ℤ × FixedDec)).map (xsEntry (chars "EPSG:5070"))) ∧
    ∀ e, reach_cross_sections (reachRecOf [(1, ⟨602, 1⟩), (1, ⟨950, 1⟩)] (chars "EPSG:5070"))
      ≠ .error e := by
  have h := cross_sections_mk [(1, ⟨602, 1⟩), (1, ⟨950, 1⟩)] (chars "EPSG:5070")
    ascending_stations_distinct (by decide)
  refine ⟨h, ?_⟩
  intro e he
  rw [h] at he
  exact Except.noConfusion he

/-- Stations 95.0 and 60.2 have distinct values. -/
theorem witness_stations_ne : fdToRat ⟨950, 1⟩ ≠ fdToRat (⟨602, 1⟩ : FixedDec) := by
  simp [fdToRat]
  norm_num

/-- C6: a node header whose first comma field parses to `1` yields a
cross-section entry, a code in {2,3,4,5,6} yields a structure entry (its
upstream section being the previously parsed cross section), and any other
code raises the `TypeError` naming the code and the supported set 2-6. -/
theorem node_type_dispatch (crs : List Char) (cg cb : ℤ) (s1 s2 : FixedDec)
    (hne : fdToRat s1 ≠ fdToRat s2)
    (hg : cg ∈ ([2, 3, 4, 5, 6] : List ℤ))
    (hb : cb ∉ ([1, 2, 3, 4, 5, 6] : List ℤ)) :
    reach_cross_sections (reachRecOf [(1, s1)] crs) = .ok [xsEntry crs (1, s1)] ∧
    reach_structures (reachRecOf [(1, s1), (cg, s2)] crs)
      = .ok [(xsKeyOf (chars "River1") (chars "Reach1") (fdToRat s2),
          structRecOf crs cg s2 (xsRecOf crs 1 s1))] ∧
    reach_structures (reachRecOf [(1, s1), (cb, s2)] crs) = .error (unsupportedMsg cb) := by
  refine ⟨?_, ?_, ?_⟩
  · have h := cross_sections_mk [(1, s1)] crs (by simp) (by simp)
    simpa using h
  · refine structures_mk2 crs cg s1 s2 hne ?_ hg
    intro he
    subst he
    exact absurd hg (by decide)
  · exact structures_badcode_mk2 crs cb s1 s2 hne hb

/-- C6 witness: code 1 gives a cross section, code 2 a structure, and the
spec's example code 7 raises the `TypeError` naming 7 and the set 2-6. -/
theorem node_type_dispatch_witness :
    reach_cross_sections (reachRecOf [(1, ⟨950, 1⟩)] (chars "EPSG:5070"))
      = .ok [xsEntry (chars "EPSG:5070") (1, ⟨950, 1⟩)] ∧
    reach_structures (reachRecOf [(1, ⟨950, 1⟩), (2, ⟨602, 1⟩)] (chars "EPSG:5070"))
      = .ok [(xsKeyOf (chars "River1") (chars "Reach1") (fdToRat ⟨602, 1⟩),
          structRecOf (chars "EPSG:5070") 2 ⟨602, 1⟩ (xsRecOf (chars "EPSG:5070") 1 ⟨950, 1⟩))] ∧
    reach_structures (reachRecOf [(1, ⟨950, 1⟩), (7, ⟨602, 1⟩)] (chars "EPSG:5070"))
      = .error (unsupportedMsg 7) := by
  have h2 := node_type_dispatch (chars "EPSG:5070") 2 7 ⟨950, 1⟩ ⟨602, 1⟩
    witness_stations_ne (by decide) (by decide)
  exact ⟨h2.1, h2.2.1, h2.2.2⟩

theorem searchResults_cons_pos {l : List Char} {rest : List (List Char)} {key tok : List Char}
    (h : containsSub l (key ++ tok) = true) :
    searchResults (l :: rest) key tok
      = (splitChars tok l).getD 1 [] :: searchResults rest key tok := by
  unfold searchResults
  rw [List.filterMap_cons, if_pos h]

theorem searchResults_cons_neg {l : List Char} {rest : List (List Char)} {key tok : List Char}
    (h : containsSub l (key ++ tok) = false) :
    searchResults (l :: rest) key tok = searchResults rest key tok := by
  unfold searchResults
  rw [List.filterMap_cons, if_neg (by simp [h])]

theorem isVE_intMsg (x : List Char) :
    isVE (chars "ValueError: invalid literal for int with base 10: " ++ x) = true := by
  unfold isVE
  rw [show chars "ValueError: invalid literal for int with base 10: "
    = chars "ValueError" ++ chars ": invalid literal for int with base 10: " by decide]
  rw [List.append_assoc]
  exact List.isPrefixOf_iff_prefix.2 (List.prefix_append _ _)

/-- C9: when the coordinate-count value and the station-elevation-count
value both fail to parse as integers, `number_of_coords` is 0, `coords`
and `station_elevation_points` are `None` (no geometry, no error), while
the tabular accessors (river station from the node header, bank stations)
still produce their values.  The `coords` outcome relies on the
`handle_spaces` fallback returning the absent line `"XS GIS Cut Line= 0"`,
whose scan then finds no anchor and yields `None`. -/
theorem catchVE_error {α : Type} {m : List Char} (dflt : α) (h : isVE m = true) :
    catchVE (.error m) dflt = .ok dflt := by
  show (if isVE m = true then Except.ok dflt else Except.error m) = Except.ok dflt
  rw [if_pos h]

theorem unparseable_counts_give_empty_geometry
    (d : List (List Char)) (cv sv bv : List Char) (s : FixedDec)
    (h1 : searchContentsOne d (chars "XS GIS Cut Line") (chars "=") = .ok cv)
    (h2 : pyIntCore (trimChars cv) = none)
    (h3 : chars "XS GIS Cut Line=0" ∉ d)
    (h4 : chars "XS GIS Cut Line= 0" ∉ d)
    (h5 : searchContentsOne d (chars "#Sta/Elev") (chars "=") = .ok sv)
    (h6 : pyIntCore (trimChars sv) = none)
    (h7 : searchContentsOne d (chars "Type RM Length L Ch R ") (chars "=")
      = .ok (nodeVal 1 s))
    (h8 : searchContentsOne d (chars "Bank Sta") (chars "=") = .ok bv) :
    xs_number_of_coords d = .ok 0 ∧
    xs_coords d = .ok none ∧
    xs_station_elevation_points d = .ok none ∧
    xs_river_station d = .ok (fdToRat s) ∧
    xs_bank_stations d = .ok (splitChars (chars ",") bv) := by
  have hint : pyInt cv = .error
      (chars "ValueError: invalid literal for int with base 10: " ++ cv) := by
    unfold pyInt
    rw [h2]
  have hcoords0 : xs_number_of_coords d = .ok 0 := by
    unfold xs_number_of_coords
    rw [h1, exceptOkBind, hint]
    exact catchVE_error 0 (isVE_intMsg cv)
  have hi0 : intToChars 0 = ['0'] := by simp [intToChars, natToChars, digitChar]
  have hrep : replaceChars (chars "=") (chars "= ") (chars "XS GIS Cut Line=0")
      = chars "XS GIS Cut Line= 0" := by
    show replaceChars ['='] (chars "= ") (chars "XS GIS Cut Line" ++ '=' :: ['0']) = _
    rw [replaceChars_cons_tok (chars "= ") ['0'] (by decide),
      replaceChars_no_tok (chars "= ") (by decide)]
    decide
  have hhsae : handle_spaces_arround_equals (chars "XS GIS Cut Line=0") d
      = some (chars "XS GIS Cut Line= 0") := by
    unfold handle_spaces_arround_equals
    rw [if_neg h3, if_neg (by decide), hrep]
  have hhs : handle_spaces (chars "XS GIS Cut Line=0") d
      = .ok (chars "XS GIS Cut Line= 0") := by
    unfold handle_spaces
    rw [if_neg h3]
    rw [show rstripSpaces (chars "XS GIS Cut Line=0") = chars "XS GIS Cut Line=0" by decide]
    rw [hhsae]
    rfl
  have hblock : text_block_from_start_str_length
      (chars "XS GIS Cut Line=" ++ intToChars 0) (ceilHalf 0) d = .ok none := by
    unfold text_block_from_start_str_length
    rw [hi0]
    rw [show chars "XS GIS Cut Line=" ++ ['0'] = chars "XS GIS Cut Line=0" by decide]
    rw [hhs, exceptOkBind]
    rw [lengthLoop_no_anchor d [] h4]
    rfl
  have hcoords : xs_coords d = .ok none := by
    unfold xs_coords
    rw [hcoords0, exceptOkBind, hblock, exceptOkBind]
    rfl
  have hsta : xs_station_elevation_points d = .ok none := by
    unfold xs_station_elevation_points xs_number_of_sta
    rw [h5, exceptOkBind]
    rw [show pyInt sv = .error
      (chars "ValueError: invalid literal for int with base 10: " ++ sv) by
        unfold pyInt
        rw [h6]]
    exact catchVE_error none (isVE_intMsg sv)
  have hrs : xs_river_station d = .ok (fdToRat s) := by
    unfold xs_river_station xsHeaderField
    rw [h7]
    simp only [exceptOkBind]
    rw [nodeVal_fields]
    rw [if_pos (by simp)]
    show pyFloat (replaceChars (chars "*") []
      ((([chars " " ++ (intToChars 1 ++ chars " "), fdStr s, chars "10", chars "10",
        chars "10"] : List (List Char))).getD 1 [])) = _
    rw [show (([chars " " ++ (intToChars 1 ++ chars " "), fdStr s, chars "10", chars "10",
      chars "10"] : List (List Char))).getD 1 [] = fdStr s from rfl]
    rw [show (chars "*") = ['*'] from rfl]
    rw [replaceChars_no_tok [] (star_notin_fdStr s)]
    exact pyFloat_fdStr s
  have hbs : xs_bank_stations d = .ok (splitChars (chars ",") bv) := by
    unfold xs_bank_stations
    rw [h8]
    rfl
  exact ⟨hcoords0, hcoords, hsta, hrs, hbs⟩

theorem c9_split_cut : splitChars (chars "=") (chars "XS GIS Cut Line=abc")
    = [chars "XS GIS Cut Line", chars "abc"] := by
  rw [show chars "XS GIS Cut Line=abc"
    = chars "XS GIS Cut Line" ++ '=' :: chars "abc" by decide]
  show splitChars ['='] _ = _
  rw [splitChars_cons_tok (chars "abc") (by decide), splitChars_no_tok (by decide)]

theorem c9_h1 : searchContentsOne
    [chars "Type RM Length L Ch R = 1 ,95.0,10,10,10", chars "XS GIS Cut Line=abc",
      chars "#Sta/Elev= xyz", chars "Bank Sta=1,2"]
    (chars "XS GIS Cut Line") (chars "=") = .ok (chars "abc") := by
  have hsr : searchResults
      [chars "Type RM Length L Ch R = 1 ,95.0,10,10,10", chars "XS GIS Cut Line=abc",
        chars "#Sta/Elev= xyz", chars "Bank Sta=1,2"]
      (chars "XS GIS Cut Line") (chars "=") = [chars "abc"] := by
    rw [searchResults_cons_neg (by decide), searchResults_cons_pos (by decide),
      searchResults_cons_neg (by decide), searchResults_cons_neg (by decide)]
    rw [show searchResults [] (chars "XS GIS Cut Line") (chars "=") = [] from rfl]
    rw [c9_split_cut]
    rfl
  unfold searchContentsOne
  rw [hsr]
  rfl

theorem c9_split_sta : splitChars (chars "=") (chars "#Sta/Elev= xyz")
    = [chars "#Sta/Elev", chars " xyz"] := by
  rw [show chars "#Sta/Elev= xyz" = chars "#Sta/Elev" ++ '=' :: chars " xyz" by decide]
  show splitChars ['='] _ = _
  rw [splitChars_cons_tok (chars " xyz") (by decide), splitChars_no_tok (by decide)]

theorem c9_h5 : searchContentsOne
    [chars "Type RM Length L Ch R = 1 ,95.0,10,10,10", chars "XS GIS Cut Line=abc",
      chars "#Sta/Elev= xyz", chars "Bank Sta=1,2"]
    (chars "#Sta/Elev") (chars "=") = .ok (chars " xyz") := by
  have hsr : searchResults
      [chars "Type RM Length L Ch R = 1 ,95.0,10,10,10", chars "XS GIS Cut Line=abc",
        chars "#Sta/Elev= xyz", chars "Bank Sta=1,2"]
      (chars "#Sta/Elev") (chars "=") = [chars " xyz"] := by
    rw [searchResults_cons_neg (by decide), searchResults_cons_neg (by decide),
      searchResults_cons_pos (by decide), searchResults_cons_neg (by decide)]
    rw [show searchResults [] (chars "#Sta/Elev") (chars "=") = [] from rfl]
    rw [c9_split_sta]
    rfl
  unfold searchContentsOne
  rw [hsr]
  rfl

theorem c9_nodeVal : nodeVal 1 (⟨950, 1⟩ : FixedDec) = chars " 1 ,95.0,10,10,10" := by
  have hfd : fdStr (⟨950, 1⟩ : FixedDec) = chars "95.0" := by
    simp [fdStr, fracChars, natToChars, digitChar]
    decide
  have hi : intToChars 1 = ['1'] := by
    simp [intToChars, natToChars, digitChar]
  unfold nodeVal
  rw [hfd, hi]
  decide

theorem c9_split_node : splitChars (chars "=") (chars "Type RM Length L Ch R = 1 ,95.0,10,10,10")
    = [chars "Type RM Length L Ch R ", chars " 1 ,95.0,10,10,10"] := by
  rw [show chars "Type RM Length L Ch R = 1 ,95.0,10,10,10"
    = chars "Type RM Length L Ch R " ++ '=' :: chars " 1 ,95.0,10,10,10" by decide]
  show splitChars ['='] _ = _
  rw [splitChars_cons_tok (chars " 1 ,95.0,10,10,10") (by decide),
    splitChars_no_tok (by decide)]

theorem c9_h7 : searchContentsOne
    [chars "Type RM Length L Ch R = 1 ,95.0,10,10,10", chars "XS GIS Cut Line=abc",
      chars "#Sta/Elev= xyz", chars "Bank Sta=1,2"]
    (chars "Type RM Length L Ch R ") (chars "=")
    = .ok (nodeVal 1 (⟨950, 1⟩ : FixedDec)) := by
  have hsr : searchResults
      [chars "Type RM Length L Ch R = 1 ,95.0,10,10,10", chars "XS GIS Cut Line=abc",
        chars "#Sta/Elev= xyz", chars "Bank Sta=1,2"]
      (chars "Type RM Length L Ch R ") (chars "=") = [chars " 1 ,95.0,10,10,10"] := by
    rw [searchResults_cons_pos (by decide), searchResults_cons_neg (by decide),
      searchResults_cons_neg (by decide), searchResults_cons_neg (by decide)]
    rw [show searchResults [] (chars "Type RM Length L Ch R ") (chars "=") = [] from rfl]
    rw [c9_split_node]
    rfl
  unfold searchContentsOne
  rw [hsr, c9_nodeVal]
  rfl

theorem c9_split_bank : splitChars (chars "=") (chars "Bank Sta=1,2")
    = [chars "Bank Sta", chars "1,2"] := by
  rw [show chars "Bank Sta=1,2" = chars "Bank Sta" ++ '=' :: chars "1,2" by decide]
  show splitChars ['='] _ = _
  rw [splitChars_cons_tok (chars "1,2") (by decide), splitChars_no_tok (by decide)]

theorem c9_h8 : searchContentsOne
    [chars "Type RM Length L Ch R = 1 ,95.0,10,10,10", chars "XS GIS Cut Line=abc",
      chars "#Sta/Elev= xyz", chars "Bank Sta=1,2"]
    (chars "Bank Sta") (chars "=") = .ok (chars "1,2") := by
  have hsr : searchResults
      [chars "Type RM Length L Ch R = 1 ,95.0,10,10,10", chars "XS GIS Cut Line=abc",
        chars "#Sta/Elev= xyz", chars "Bank Sta=1,2"]
      (chars "Bank Sta") (chars "=") = [chars "1,2"] := by
    rw [searchResults_cons_neg (by decide), searchResults_cons_neg (by decide),
      searchResults_cons_neg (by decide), searchResults_cons_pos (by decide)]
    rw [show searchResults [] (chars "Bank Sta") (chars "=") = [] from rfl]
    rw [c9_split_bank]
    rfl
  unfold searchContentsOne
  rw [hsr]
  rfl

/-- C9 witness: a document whose coordinate count is `"abc"` and whose
station-elevation count is `"xyz"` yields count 0 and `None` geometry while
river station 95.0 and bank stations are still extracted. -/
theorem unparseable_counts_give_empty_geometry_witness :
    xs_number_of_coords
      [chars "Type RM Length L Ch R = 1 ,95.0,10,10,10", chars "XS GIS Cut Line=abc",
        chars "#Sta/Elev= xyz", chars "Bank Sta=1,2"] = .ok 0 ∧
    xs_coords
      [chars "Type RM Length L Ch R = 1 ,95.0,10,10,10", chars "XS GIS Cut Line=abc",
        chars "#Sta/Elev= xyz", chars "Bank Sta=1,2"] = .ok none ∧
    xs_station_elevation_points
      [chars "Type RM Length L Ch R = 1 ,95.0,10,10,10", chars "XS GIS Cut Line=abc",
        chars "#Sta/Elev= xyz", chars "Bank Sta=1,2"] = .ok none ∧
    xs_river_station
      [chars "Type RM Length L Ch R = 1 ,95.0,10,10,10", chars "XS GIS Cut Line=abc",
        chars "#Sta/Elev= xyz", chars "Bank Sta=1,2"]
      = .ok (fdToRat (⟨950, 1⟩ : FixedDec)) ∧
    xs_bank_stations
      [chars "Type RM Length L Ch R = 1 ,95.0,10,10,10", chars "XS GIS Cut Line=abc",
        chars "#Sta/Elev= xyz", chars "Bank Sta=1,2"]
      = .ok (splitChars (chars ",") (chars "1,2")) :=
  unparseable_counts_give_empty_geometry
    [chars "Type RM Length L Ch R = 1 ,95.0,10,10,10", chars "XS GIS Cut Line=abc",
      chars "#Sta/Elev= xyz", chars "Bank Sta=1,2"]
    (chars "abc") (chars " xyz") (chars "1,2") ⟨950, 1⟩
    c9_h1 (by decide) (by decide) (by decide) c9_h5 (by decide) c9_h7 c9_h8

/-- State of a `GeometryAsset` relevant to its geometry accessors: the
parsed lines, the optional CRS, and the `_concave_hull` cache (the cached
hull, like the other GeoDataFrame payloads below, is abstracted by the
coordinate data it would carry; shapely geometry itself is outside this
embedding). -/
structure GeomAssetState where
  contents : List (List Char)
  crs : Option (List Char)
  concave_hull_cache : Option (List (ℚ × ℚ))

/-- The `check_crs` decorator: raise `ValueError` before the body runs
when `self.crs` is `None`. -/
def checkCrsRun {α : Type} (crs : Option (List Char))
    (body : List Char → Except (List Char) α) : Except (List Char) α :=
  match crs with
  | none => .error (chars "ValueError: Projection cannot be None")
  | some c => body c

/-- Loop of `GeometryAsset.reaches`: `reaches[rr] = Reach(contents, rr, crs)`. -/
def geomReachesLoop (contents : List (List Char)) (c : List Char) :
    List (List Char) → List (List Char × ReachRec) →
    Except (List Char) (List (List Char × ReachRec))
  | [], acc => .ok acc
  | rr :: rest, acc => do
    let r ← reachInit contents rr c
    geomReachesLoop contents c rest (dictInsert acc rr r)

/-- Model of `GeometryAsset.reaches` (`search_contents` with `expect_one=False`
returns the plain list of `"River Reach"` values). -/
def geom_reaches (st : GeomAssetState) :
    Except (List Char) (List (List Char × ReachRec)) :=
  checkCrsRun st.crs fun c =>
    geomReachesLoop st.contents c
      (searchResults st.contents (chars "River Reach") (chars "=")) []

/-- Python `dict.update` over an insertion-ordered association list. -/
def dictUpdate {α : Type} (acc new : List (List Char × α)) : List (List Char × α) :=
  new.foldl (fun a p => dictInsert a p.1 p.2) acc

/-- Loop of `GeometryAsset.cross_sections`:
`cross_sections.update(reach.cross_sections)` per reach. -/
def geomXSUnionLoop :
    List (List Char × ReachRec) → List (List Char × XSRec) →
    Except (List Char) (List (List Char × XSRec))
  | [], acc => .ok acc
  | (_, r) :: rest, acc => do
    let cs ← reach_cross_sections r
    geomXSUnionLoop rest (dictUpdate acc cs)

/-- Model of `GeometryAsset.cross_sections`. -/
def geom_cross_sections (st : GeomAssetState) :
    Except (List Char) (List (List Char × XSRec)) :=
  checkCrsRun st.crs fun c => do
    let rs ← geomReachesLoop st.contents c
      (searchResults st.contents (chars "River Reach") (chars "=")) []
    geomXSUnionLoop rs []

/-- Model of `pd.concat(...)`: an empty list of frames raises `ValueError`. -/
def pdConcat {α : Type} (l : List α) : Except (List Char) (List α) :=
  if l.isEmpty then .error (chars "ValueError: No objects to concatenate") else .ok l

/-- Model of `GeometryAsset.reach_gdf`: each reach's GeoDataFrame is abstracted by
its record (the geometric columns are outside this embedding). -/
def geom_reach_gdf (st : GeomAssetState) : Except (List Char) (List ReachRec) :=
  checkCrsRun st.crs fun c => do
    let rs ← geomReachesLoop st.contents c
      (searchResults st.contents (chars "River Reach") (chars "=")) []
    pdConcat (rs.map Prod.snd)

/-- Model of `GeometryAsset.xs_gdf`: rows abstracted by the cross-section records. -/
def geom_xs_gdf (st : GeomAssetState) : Except (List Char) (List XSRec) :=
  checkCrsRun st.crs fun c => do
    let rs ← geomReachesLoop st.contents c
      (searchResults st.contents (chars "River Reach") (chars "=")) []
    let cs ← geomXSUnionLoop rs []
    pdConcat (cs.map Prod.snd)

/-- Model of `GeometryAsset.concave_hull`: no `check_crs` decorator of its own, but
after the cache check its first step reads `self.xs_gdf`, which is guarded;
past that point the method dereferences the undefined global `junction`
(the per-reach polygon constructions on the way cannot rescue it), so the
successful-geometry branch is never reached and is not modelled further. -/
def geom_concave_hull (st : GeomAssetState) : Except (List Char) (List (ℚ × ℚ)) :=
  match st.concave_hull_cache with
  | some h => .ok h
  | none => do
    let _ ← geom_xs_gdf st
    .error (chars "NameError: name junction is not defined")

/-- C5: with no CRS assigned (and no previously cached hull), every
geometry accessor — reaches, cross sections, the reach and cross-section
GeoDataFrames, and the concave hull — fails with the `check_crs`
`ValueError` before any geometry is computed; no default CRS is
substituted. -/
theorem crs_guard_blocks_geometry (st : GeomAssetState)
    (h1 : st.crs = none) (h2 : st.concave_hull_cache = none) :
    geom_reaches st = .error (chars "ValueError: Projection cannot be None") ∧
    geom_cross_sections st = .error (chars "ValueError: Projection cannot be None") ∧
    geom_reach_gdf st = .error (chars "ValueError: Projection cannot be None") ∧
    geom_xs_gdf st = .error (chars "ValueError: Projection cannot be None") ∧
    geom_concave_hull st = .error (chars "ValueError: Projection cannot be None") := by
  have hx : geom_xs_gdf st = .error (chars "ValueError: Projection cannot be None") := by
    unfold geom_xs_gdf checkCrsRun
    rw [h1]
  refine ⟨?_, ?_, ?_, hx, ?_⟩
  · unfold geom_reaches checkCrsRun
    rw [h1]
  · unfold geom_cross_sections checkCrsRun
    rw [h1]
  · unfold geom_reach_gdf checkCrsRun
    rw [h1]
  · unfold geom_concave_hull
    rw [h2, hx]
    rfl

/-- C5 witness: a freshly parsed asset (no CRS, empty cache) is rejected by
all five accessors. -/
theorem crs_guard_blocks_geometry_witness :
    geom_reaches ⟨[], none, none⟩
      = .error (chars "ValueError: Projection cannot be None") ∧
    geom_cross_sections ⟨[], none, none⟩
      = .error (chars "ValueError: Projection cannot be None") ∧
    geom_reach_gdf ⟨[], none, none⟩
      = .error (chars "ValueError: Projection cannot be None") ∧
    geom_xs_gdf ⟨[], none, none⟩
      = .error (chars "ValueError: Projection cannot be None") ∧
    geom_concave_hull ⟨[], none, none⟩
      = .error (chars "ValueError: Projection cannot be None") :=
  crs_guard_blocks_geometry ⟨[], none, none⟩ rfl rfl

/-- Python `round(x, 2)` on exact rationals: nearest multiple of 1/100,
ties to even (the binary-float representation error of the Python value is
idealised away). -/
def pyRound2 (q : ℚ) : ℚ :=
  let n : ℚ := q * 100
  let f : ℤ := ⌊n⌋
  let r : ℚ := n - (f : ℚ)
  let k : ℤ :=
    if r < 1 / 2 then f
    else if 1 / 2 < r then f + 1
    else if f % 2 = 0 then f else f + 1
  (k : ℚ) / 100

/-- Model of `GeometryAsset.get_river_miles` as written: its first statement reads
`self.river_gdf`, an attribute no code path assigns (the class only defines
`reach_gdf`), so every call raises `AttributeError` before any unit logic
runs. -/
def get_river_miles (_st : GeomAssetState) : Except (List Char) ℚ :=
  .error (chars "AttributeError: GeometryAsset object has no attribute river_gdf")

/-- The unit logic of `get_river_miles` (the body after the `river_gdf`
reference), parameterised by the `units` entry of the CRS dictionary
(`none` when the key is missing) and by the summed centerline length. -/
def get_river_miles_dispatch (units : Option (List Char)) (total_len : ℚ) :
    Except (List Char) ℚ :=
  match units with
  | none =>
    .error (chars "RuntimeError: No units specified. The coordinate system may be Geographic.")
  | some u =>
    if u = chars "ft-us" ∨ u = chars "ft" ∨ u = chars "us-ft" then
      .ok (pyRound2 (total_len * (1 / 5280)))
    else if u = chars "m" ∨ u = chars "meters" then
      .ok (pyRound2 (total_len * (1 / 1609)))
    else .error (chars "RuntimeError: Expected feet or meters; got: " ++ u)

/-- C7 (amended): `get_river_miles` never returns a number — the method
reads the nonexistent `river_gdf` attribute and raises `AttributeError` on
every asset.  Its unit logic, were it reachable, maps a 5280-foot network
under a `us-ft` CRS to 1.0 mile, and raises `RuntimeError` (not a
dedicated `UnsupportedLinearUnit`) for any unit outside
{ft-us, ft, us-ft, m, meters} — the accepted set also contains `ft-us`,
which the claim's whitelist omits (see the counterexample). -/
theorem river_miles_unit_behavior (st : GeomAssetState) (u : List Char) (total_len : ℚ)
    (hu : u ∉ [chars "ft-us", chars "ft", chars "us-ft", chars "m", chars "meters"]) :
    get_river_miles st
      = .error (chars "AttributeError: GeometryAsset object has no attribute river_gdf") ∧
    get_river_miles_dispatch (some (chars "us-ft")) 5280 = .ok 1 ∧
    get_river_miles_dispatch (some u) total_len
      = .error (chars "RuntimeError: Expected feet or meters; got: " ++ u) := by
  refine ⟨rfl, ?_, ?_⟩
  · simp only [get_river_miles_dispatch]
    rw [if_pos (by decide)]
    rw [show pyRound2 ((5280 : ℚ) * (1 / 5280)) = 1 by norm_num [pyRound2]]
  · simp only [get_river_miles_dispatch]
    rw [if_neg (by
        intro hc
        rcases hc with h | h | h
        · exact hu (by rw [h]; decide)
        · exact hu (by rw [h]; simp)
        · exact hu (by rw [h]; simp)),
      if_neg (by
        intro hc
        rcases hc with h | h
        · exact hu (by rw [h]; simp)
        · exact hu (by rw [h]; simp))]

/-- C7 witness: a 5280-foot network would convert to 1.0 mile, and the
unit `yd` is rejected by the dispatch; the method itself raises. -/
theorem river_miles_unit_behavior_witness :
    get_river_miles ⟨[], some (chars "EPSG:5070"), none⟩
      = .error (chars "AttributeError: GeometryAsset object has no attribute river_gdf") ∧
    get_river_miles_dispatch (some (chars "us-ft")) 5280 = .ok 1 ∧
    get_river_miles_dispatch (some (chars "yd")) 100
      = .error (chars "RuntimeError: Expected feet or meters; got: " ++ chars "yd") :=
  river_miles_unit_behavior ⟨[], some (chars "EPSG:5070"), none⟩ (chars "yd") 100 (by decide)

/-- C7 counterexample: the claim's reading fails twice over — the method
itself never returns 1.0 (it raises `AttributeError`), and the unit string
`"ft-us"`, outside the claim's whitelist, is accepted by the unit logic
rather than raising. -/
theorem river_miles_not_as_claimed :
    get_river_miles ⟨[], some (chars "EPSG:5070"), none⟩ ≠ .ok 1 ∧
    get_river_miles_dispatch (some (chars "ft-us")) 5280 = .ok 1 := by
  constructor
  · intro hc
    exact Except.noConfusion hc
  · simp only [get_river_miles_dispatch]
    rw [if_pos (by decide)]
    rw [show pyRound2 ((5280 : ℚ) * (1 / 5280)) = 1 by norm_num [pyRound2]]

/-- State set up by `GenericAsset.__init__` that `download_asset_str`
touches. -/
structure GenAssetState where
  url : List Char
  file_str : Option (List Char)
deriving DecidableEq

/-- Model of `GenericAsset.download_asset_str`: stores the downloaded text in
`self.file_str` and, having no `return` statement, returns `None`
(`content` stands for the text the url resolves to). -/
def download_asset_str (st : GenAssetState) (content : List Char) :
    GenAssetState × Option (List Char) :=
  ({ st with file_str := some content }, none)

/-- Model of `GeometryAsset.__init__` after `super().__init__`: it calls
`.splitlines()` directly on the value returned by `download_asset_str`;
an attribute access on `None` is an `AttributeError`. -/
def geometry_asset_init (st : GenAssetState) (content : List Char) :
    Except (List Char) (GenAssetState × List (List Char)) :=
  match download_asset_str st content with
  | (_, none) => .error (chars "AttributeError: NoneType object has no attribute splitlines")
  | (st2, some s) => .ok (st2, splitChars ['\n'] s)

/-- C10: `download_asset_str` stores the text and returns `None`, so
`GeometryAsset.__init__` raises `AttributeError` for every url and every
downloaded content — no `GeometryAsset` is ever constructed, leaving all
its accessors unreachable through this constructor. -/
theorem geometry_asset_init_always_fails (st : GenAssetState) (content : List Char) :
    (download_asset_str st content).1.file_str = some content ∧
    (download_asset_str st content).2 = none ∧
    geometry_asset_init st content
      = .error (chars "AttributeError: NoneType object has no attribute splitlines") :=
  ⟨rfl, rfl, rfl⟩
